import Mathlib

/-!
# Verification of the local-devops orchestration engine

A shallow embedding, in Lean 4, of the orchestration core of the
`local-devops-mcp` repository: the dependency resolver and readiness
prober (`src/dependencies.py`), the group deployment orchestrator
(`server.py`, `deploy_group`), the health supervisor (`src/health.py`),
the snapshot/restore engine (`src/snapshots.py`) and the template
manager (`src/templates.py`).

Conventions of the embedding:
* Python dicts used as records become Lean structures whose optional keys
  are `Option` fields; Python dicts used as string-keyed maps become
  association lists (`List (String × α)`) with Python's "last write wins,
  first key kept" update semantics made explicit where needed.
* Network and container-runtime effects are parametrised by oracles
  (functions supplied as arguments) describing the outcome of each
  external call; the check helpers of the source catch their network
  exceptions and return `False`, which the oracles model by being total
  `Bool`-valued functions.
* `while` loops become structural recursion on an explicit bound that
  mirrors the loop's own termination measure (number of poll rounds that
  fit in the timeout, or the size of the remaining work list).
* Fallible code returns `Except PyErr`; `raise` becomes `.error`.
-/

/-- Python exceptions raised by the embedded code paths. -/
inductive PyErr where
  /-- `RuntimeError(msg)` -/
  | runtimeError (msg : String)
  /-- `ValueError(msg)` -/
  | valueError (msg : String)
  /-- `AttributeError(msg)` -/
  | attributeError (msg : String)
  deriving Repr, DecidableEq

/-- The `wait_condition` dictionary of `src/dependencies.py`.  Each key the
code reads with `.get` is an `Option` field (`none` = key absent; the code
never distinguishes an absent key from a `None` value, and neither does
this record). -/
structure WaitCondition where
  type : Option String := none
  host : Option String := none
  port : Option Int := none
  url : Option String := none
  pattern : Option String := none
  container_id : Option String := none
  deriving Repr, DecidableEq

/-- Outcomes of the three per-attempt network/runtime checks of
`DependencyManager` (`_check_tcp_port`, `_check_http_endpoint`,
`_check_log_pattern` in `src/dependencies.py`).  The first argument is the
index of the polling attempt; the remaining arguments are exactly the
values the source reads out of the condition dict with `.get`.  The source
helpers catch their network/docker exceptions and return `False`, so each
check is a total `Bool`. -/
structure CheckOracle where
  tcp : Nat → Option String → Option Int → Bool
  http : Nat → Option String → Bool
  log : Nat → Option String → Option String → Bool

/-- One iteration of the body of `DependencyManager.wait_for_condition`
(`src/dependencies.py` lines 134-153): dispatch on `condition.get("type")`
and run the matching check.  An unknown or absent type matches no branch
and the iteration checks nothing. -/
def condAttempt (oracle : CheckOracle) (c : WaitCondition) (k : Nat) : Bool :=
  match c.type with
  | some "tcp" => oracle.tcp k c.host c.port
  | some "http" => oracle.http k c.url
  | some "log" => oracle.log k c.container_id c.pattern
  | _ => false

/-- The polling loop of `wait_for_condition`: attempt `k` runs at elapsed
time `2*k` seconds (each failed round ends in `time.sleep(2)`), and the
loop guard `time.time() - start_time < timeout` admits exactly the rounds
with `2*k < timeout`, i.e. `(timeout+1)/2` rounds.  `fuel` is that number
of remaining admitted rounds.  The second component of the result counts
the `time.sleep(2)` calls actually executed, instrumenting how often the
loop polled. -/
def waitLoop (attempt : Nat → Bool) : Nat → Nat → Bool × Nat
  | _, 0 => (false, 0)
  | k, fuel + 1 =>
    if attempt k then (true, 0)
    else
      let r := waitLoop attempt (k + 1) fuel
      (r.1, r.2 + 1)

/-- `DependencyManager.wait_for_condition(condition, timeout)`
(`src/dependencies.py` lines 121-156), instrumented with the number of
sleep rounds executed. -/
def wait_for_condition_instr (oracle : CheckOracle) (c : WaitCondition)
    (timeout : Nat) : Bool × Nat :=
  waitLoop (condAttempt oracle c) 0 ((timeout + 1) / 2)

/-- `DependencyManager.wait_for_condition(condition, timeout)`: the value
the source returns. -/
def wait_for_condition (oracle : CheckOracle) (c : WaitCondition)
    (timeout : Nat) : Bool :=
  (wait_for_condition_instr oracle c timeout).1

lemma waitLoop_false_iff (attempt : Nat → Bool) :
    ∀ fuel k, (waitLoop attempt k fuel).1 = false ↔
      ∀ j, j < fuel → attempt (k + j) = false := by
  intro fuel
  induction fuel with
  | zero => intro k; simp [waitLoop]
  | succ n ih =>
    intro k
    by_cases h : attempt k
    · simp only [waitLoop, h, if_pos]
      constructor
      · intro hfalse; cases hfalse
      · intro hall
        have := hall 0 (Nat.succ_pos n)
        simp [h] at this
    · simp only [waitLoop, h, if_neg, Bool.false_eq_true, not_false_iff]
      rw [ih (k + 1)]
      constructor
      · intro hall j hj
        cases j with
        | zero => simpa using h
        | succ m =>
          have := hall m (Nat.lt_of_succ_lt_succ hj)
          simpa [Nat.add_assoc, Nat.add_comm 1 m] using this
      · intro hall j hj
        have := hall (j + 1) (Nat.succ_lt_succ hj)
        simpa [Nat.add_assoc, Nat.add_comm 1 j] using this

lemma two_mul_lt_iff_lt_half_succ (k timeout : Nat) :
    2 * k < timeout ↔ k < (timeout + 1) / 2 := by
  omega

lemma waitLoop_sleeps (attempt : Nat → Bool) :
    ∀ fuel k, (∀ j, j < fuel → attempt (k + j) = false) →
      (waitLoop attempt k fuel).2 = fuel := by
  intro fuel
  induction fuel with
  | zero => intro k _; simp [waitLoop]
  | succ n ih =>
    intro k hall
    have h0 : attempt k = false := by simpa using hall 0 (Nat.succ_pos n)
    simp only [waitLoop, h0, Bool.false_eq_true, if_neg, not_false_iff]
    have : (waitLoop attempt (k + 1) n).2 = n := by
      apply ih
      intro j hj
      have := hall (j + 1) (Nat.succ_lt_succ hj)
      simpa [Nat.add_assoc, Nat.add_comm 1 j] using this
    omega

lemma condAttempt_unknown_type (oracle : CheckOracle) (c : WaitCondition)
    (h1 : c.type ≠ some "tcp") (h2 : c.type ≠ some "http")
    (h3 : c.type ≠ some "log") (k : Nat) :
    condAttempt oracle c k = false := by
  unfold condAttempt
  split
  · exact absurd (by assumption) h1
  · exact absurd (by assumption) h2
  · exact absurd (by assumption) h3
  · rfl

/-- C4: `wait_for_condition` re-evaluates the condition on a fixed
2-second schedule (attempt `k` happens at elapsed time `2*k`, inside the
timeout window) and returns `false` if and only if no admitted evaluation
of the condition returns true; the check helpers catch ordinary
unreachability and report it as a failed attempt (`Bool`-valued oracles),
never as an exception. -/
theorem wait_for_condition_false_iff (oracle : CheckOracle)
    (c : WaitCondition) (timeout : Nat) :
    wait_for_condition oracle c timeout = false ↔
      ∀ k, 2 * k < timeout → condAttempt oracle c k = false := by
  unfold wait_for_condition wait_for_condition_instr
  rw [waitLoop_false_iff]
  constructor
  · intro h k hk
    have := h k ((two_mul_lt_iff_lt_half_succ k timeout).mp hk)
    simpa using this
  · intro h j hj
    have := h j ((two_mul_lt_iff_lt_half_succ j timeout).mpr hj)
    simpa using this

/-- C6 counterexample: a condition whose required `type` field is absent
is not rejected before the retry loop starts.  Even with an oracle whose
every check would succeed, `wait_for_condition` silently runs all 30
polling rounds of the 60-second window (30 executed `time.sleep(2)`
calls) and then returns `false`; no error is signalled at any point. -/
theorem wait_for_condition_malformed_polls :
    wait_for_condition_instr
      ⟨fun _ _ _ => true, fun _ _ => true, fun _ _ _ => true⟩
      { type := none } 60 = (false, 30) := by
  decide

/-- C6 amended: `wait_for_condition` performs no validation of its
condition input.  A malformed condition — one whose `type` is absent or
names none of the known check kinds — is silently polled with 2-second
sleeps for the whole timeout window and then yields `false`; no error is
signalled before (or during) the loop.  Well-formed conditions likewise
return `false` on timeout without raising. -/
theorem wait_for_condition_malformed_spec (oracle : CheckOracle)
    (c : WaitCondition) (timeout : Nat)
    (h1 : c.type ≠ some "tcp") (h2 : c.type ≠ some "http")
    (h3 : c.type ≠ some "log") :
    wait_for_condition_instr oracle c timeout = (false, (timeout + 1) / 2) := by
  unfold wait_for_condition_instr
  have hall : ∀ j, j < (timeout + 1) / 2 → condAttempt oracle c (0 + j) = false :=
    fun j _ => condAttempt_unknown_type oracle c h1 h2 h3 (0 + j)
  have hfst := (waitLoop_false_iff (condAttempt oracle c) ((timeout + 1) / 2) 0).mpr hall
  have hsnd := waitLoop_sleeps (condAttempt oracle c) ((timeout + 1) / 2) 0 hall
  exact Prod.ext hfst hsnd

/-- Witness for `wait_for_condition_malformed_spec` at a concrete
malformed condition (`type = "tcpp"`, a typo'd kind) and timeout 7. -/
theorem wait_for_condition_malformed_spec_witness :
    wait_for_condition_instr
      ⟨fun _ _ _ => true, fun _ _ => true, fun _ _ _ => true⟩
      { type := some "tcpp" } 7 = (false, 4) :=
  wait_for_condition_malformed_spec _ _ 7 (by decide) (by decide) (by decide)

/-- A service definition dictionary as consumed by `deploy_group`
(`server.py`) and `sort_services_by_dependencies`
(`src/dependencies.py`).  Keys the code reads with `.get` are `Option`
fields; `name` and `image` are read with `[]` and treated as always
present.  Python port/env dicts become association lists. -/
structure ServiceDef where
  name : String
  image : String
  ports : List (String × String) := []
  env_vars : List (String × String) := []
  depends_on : Option String := none
  wait_condition : Option WaitCondition := none
  deriving Repr, DecidableEq

/-- The eligibility test of the resolver's scan
(`src/dependencies.py` line 181): `if not deps or deps in deployed`.
A missing `depends_on` key is `None` and the empty string is falsy, so
both count as "no dependency". -/
def eligibleB (s : ServiceDef) (deployed : List String) : Bool :=
  match s.depends_on with
  | none => true
  | some d => d == "" || deployed.contains d

/-- The inner `for i, service in enumerate(remaining)` scan with
`remaining.pop(i)` on the first eligible hit
(`src/dependencies.py` lines 178-185): returns the first eligible
definition and the remaining list with that one occurrence removed. -/
def extractFirstEligible (deployed : List String) :
    List ServiceDef → Option (ServiceDef × List ServiceDef)
  | [] => none
  | s :: rest =>
    if eligibleB s deployed then some (s, rest)
    else
      match extractFirstEligible deployed rest with
      | none => none
      | some (t, rest2) => some (t, s :: rest2)

/-- The `while remaining:` loop of `sort_services_by_dependencies`
(`src/dependencies.py` lines 176-192).  Each pass either moves one
definition from `remaining` to the output or raises, so the loop runs at
most `remaining.length` passes; `fuel` is that bound (callers always pass
`fuel = remaining.length`).  A stuck pass raises
`RuntimeError("Circular dependency or missing dependency in: ...")`,
modelled as `.error` carrying the list of remaining names the message
reports. -/
def sortLoop : Nat → List ServiceDef → List String →
    Except (List String) (List ServiceDef)
  | 0, _, _ => .ok []
  | fuel + 1, remaining, deployed =>
    if remaining.isEmpty then .ok []
    else
      match extractFirstEligible deployed remaining with
      | none => .error (remaining.map (·.name))
      | some (s, rest) =>
        match sortLoop fuel rest (s.name :: deployed) with
        | .error names => .error names
        | .ok l => .ok (s :: l)

/-- `DependencyManager.sort_services_by_dependencies(services)`
(`src/dependencies.py` lines 158-194). -/
def sort_services_by_dependencies (services : List ServiceDef) :
    Except (List String) (List ServiceDef) :=
  sortLoop services.length services []

lemma eligibleB_congr (s : ServiceDef) (d₁ d₂ : List String)
    (h : ∀ x, x ∈ d₁ ↔ x ∈ d₂) : eligibleB s d₁ = eligibleB s d₂ := by
  unfold eligibleB
  cases s.depends_on with
  | none => rfl
  | some d =>
    by_cases hd : d = ""
    · simp [hd]
    · simp [hd, h d]

lemma extractFirstEligible_split {deployed : List String}
    {l : List ServiceDef} {s : ServiceDef} {rest : List ServiceDef}
    (h : extractFirstEligible deployed l = some (s, rest)) :
    ∃ pre suf, l = pre ++ s :: suf ∧ rest = pre ++ suf ∧
      (∀ p ∈ pre, eligibleB p deployed = false) ∧
      eligibleB s deployed = true := by
  induction l generalizing s rest with
  | nil => simp [extractFirstEligible] at h
  | cons a tl ih =>
    by_cases ha : eligibleB a deployed
    · simp only [extractFirstEligible, ha, if_pos] at h
      obtain ⟨rfl, rfl⟩ := Prod.mk.injEq .. ▸ (Option.some.injEq _ _ ▸ h)
      exact ⟨[], tl, rfl, rfl, by simp, ha⟩
    · simp only [extractFirstEligible, ha, if_neg, Bool.false_eq_true,
        not_false_iff] at h
      match hrec : extractFirstEligible deployed tl with
      | none => rw [hrec] at h; cases h
      | some (t, rest2) =>
        rw [hrec] at h
        obtain ⟨rfl, rfl⟩ := Prod.mk.injEq .. ▸ (Option.some.injEq _ _ ▸ h)
        obtain ⟨pre, suf, h1, h2, h3, h4⟩ := ih hrec
        refine ⟨a :: pre, suf, by simp [h1], by simp [h2], ?_, h4⟩
        intro p hp
        rcases List.mem_cons.mp hp with rfl | hp
        · simpa using ha
        · exact h3 p hp

lemma extractFirstEligible_none {deployed : List String}
    {l : List ServiceDef} (h : extractFirstEligible deployed l = none) :
    ∀ s ∈ l, eligibleB s deployed = false := by
  induction l with
  | nil => intro s hs; cases hs
  | cons a tl ih =>
    by_cases ha : eligibleB a deployed
    · simp [extractFirstEligible, ha] at h
    · simp only [extractFirstEligible, ha, if_neg, Bool.false_eq_true,
        not_false_iff] at h
      intro s hs
      rcases List.mem_cons.mp hs with rfl | hs
      · simpa using ha
      · match hrec : extractFirstEligible deployed tl with
        | none => exact ih hrec s hs
        | some (t, rest2) => rw [hrec] at h; cases h

/-- A dependency cycle among the definitions of a batch: a nonempty list
of batch members in which each member's `depends_on` names the next
member (cyclically).  Member names must be nonempty because the
resolver's falsy test (`if not deps or ...`) treats a reference to the
empty string as "no dependency", so such a reference is not a
dependency edge. -/
structure IsDepCycle (defs l : List ServiceDef) : Prop where
  nonempty : l ≠ []
  mem : ∀ s ∈ l, s ∈ defs
  names_ne : ∀ s ∈ l, s.name ≠ ""
  closes : ∀ i (hi : i < l.length),
    (l.get ⟨i, hi⟩).depends_on =
      some ((l.get ⟨(i + 1) % l.length,
        Nat.mod_lt _ (List.length_pos.mpr nonempty)⟩).name)

/-- A batch is acyclic when no dependency cycle can be formed from its
definitions. -/
def Acyclic (defs : List ServiceDef) : Prop := ¬ ∃ l, IsDepCycle defs l

/-- Successor map on a trap set: follow a definition's `depends_on`
reference to the (first) member of `R` carrying that name. -/
def nextInTrap (R : List ServiceDef) (s : ServiceDef) : ServiceDef :=
  match s.depends_on with
  | some d =>
    match R.find? (fun t => t.name == d) with
    | some t => t
    | none => s
  | none => s

lemma nextInTrap_spec {R : List ServiceDef}
    (htrap : ∀ s ∈ R, ∃ d, s.depends_on = some d ∧ d ≠ "" ∧
      ∃ t ∈ R, t.name = d) :
    ∀ s ∈ R, nextInTrap R s ∈ R ∧
      s.depends_on = some (nextInTrap R s).name ∧
      (nextInTrap R s).name ≠ "" := by
  intro s hs
  obtain ⟨d, hd, hdne, t, ht, htd⟩ := htrap s hs
  rcases hfind : R.find? (fun t => t.name == d) with _ | u
  · exfalso
    have := List.find?_eq_none.mp hfind t ht
    simp [htd] at this
  · have hu : u ∈ R := List.mem_of_find?_eq_some hfind
    have hun : u.name = d := by
      have := List.find?_some hfind
      simpa using this
    have hnext : nextInTrap R s = u := by
      simp [nextInTrap, hd, hfind]
    rw [hnext, hun]
    exact ⟨hu, hd, hdne⟩

lemma iterate_nextInTrap_mem {R : List ServiceDef}
    (htrap : ∀ s ∈ R, ∃ d, s.depends_on = some d ∧ d ≠ "" ∧
      ∃ t ∈ R, t.name = d)
    {s₀ : ServiceDef} (hs₀ : s₀ ∈ R) :
    ∀ m, (nextInTrap R)^[m] s₀ ∈ R := by
  intro m
  induction m with
  | zero => simpa using hs₀
  | succ k ih =>
    rw [Function.iterate_succ_apply']
    exact (nextInTrap_spec htrap _ ih).1

/-- Every nonempty trap set — definitions each of whose dependencies
names another member of the set — yields a dependency cycle
(pigeonhole along the successor map). -/
lemma trap_has_cycle (defs R : List ServiceDef) (hne : R ≠ [])
    (hsub : ∀ s ∈ R, s ∈ defs)
    (htrap : ∀ s ∈ R, ∃ d, s.depends_on = some d ∧ d ≠ "" ∧
      ∃ t ∈ R, t.name = d) :
    ∃ l, IsDepCycle defs l := by
  obtain ⟨s₀, hs₀⟩ := List.exists_mem_of_ne_nil R hne
  set g : Nat → ServiceDef := fun m => (nextInTrap R)^[m] s₀ with hg
  have hgmem : ∀ m, g m ∈ R := iterate_nextInTrap_mem htrap hs₀
  have hgsucc : ∀ m, g (m + 1) = nextInTrap R (g m) := by
    intro m; rw [hg]; simp [Function.iterate_succ_apply']
  have hcard : (R.toFinset).card < (Finset.range (R.length + 1)).card := by
    have := R.toFinset_card_le
    simp only [Finset.card_range]
    omega
  have hmaps : ∀ m ∈ Finset.range (R.length + 1), g m ∈ R.toFinset := by
    intro m _; exact List.mem_toFinset.mpr (hgmem m)
  obtain ⟨x, _, y, _, hxy, hgxy⟩ :=
    Finset.exists_ne_map_eq_of_card_lt_of_maps_to hcard hmaps
  obtain ⟨a, b, hab, hgab⟩ : ∃ a b, a < b ∧ g a = g b := by
    rcases Nat.lt_or_ge x y with h | h
    · exact ⟨x, y, h, hgxy⟩
    · rcases Nat.lt_or_ge y x with h2 | h2
      · exact ⟨y, x, h2, hgxy.symm⟩
      · exact absurd (Nat.le_antisymm h2 h) hxy
  set len := b - a with hlen
  have hlenpos : 0 < len := by omega
  set c : List ServiceDef := (List.range len).map (fun m => g (a + m)) with hc
  have hclen : c.length = len := by simp [hc]
  have hcget : ∀ j (hj : j < c.length), c.get ⟨j, hj⟩ = g (a + j) := by
    intro j hj
    simp [hc, List.get_eq_getElem]
  have himage : ∀ m, ∃ x, x ∈ R ∧ g (a + m) = nextInTrap R x := by
    intro m
    rcases Nat.eq_zero_or_pos (a + m) with hz | hp
    · refine ⟨g (b - 1), hgmem _, ?_⟩
      have ha0 : a = 0 := by omega
      have hm0 : m = 0 := by omega
      have hbsucc : b - 1 + 1 = b := by omega
      calc g (a + m) = g a := by rw [hm0, Nat.add_zero]
        _ = g b := hgab
        _ = g (b - 1 + 1) := by rw [hbsucc]
        _ = nextInTrap R (g (b - 1)) := hgsucc _
    · refine ⟨g (a + m - 1), hgmem _, ?_⟩
      have hsucc : a + m - 1 + 1 = a + m := by omega
      calc g (a + m) = g (a + m - 1 + 1) := by rw [hsucc]
        _ = nextInTrap R (g (a + m - 1)) := hgsucc _
  refine ⟨c, ?_, ?_, ?_, ?_⟩
  · intro hempty
    have h0 : c.length = 0 := by rw [hempty]; rfl
    rw [hclen] at h0
    omega
  · intro s hsmem
    obtain ⟨m, _, rfl⟩ := List.mem_map.mp hsmem
    exact hsub _ (hgmem _)
  · intro s hsmem
    obtain ⟨m, _, rfl⟩ := List.mem_map.mp hsmem
    obtain ⟨x, hx, heq⟩ := himage m
    rw [heq]
    exact (nextInTrap_spec htrap x hx).2.2
  · intro i hi
    rw [hcget i hi, hcget ((i + 1) % c.length) (Nat.mod_lt _ (by omega))]
    have hstep : (g (a + i)).depends_on = some ((g (a + i + 1)).name) := by
      rw [hgsucc (a + i)]
      exact (nextInTrap_spec htrap _ (hgmem (a + i))).2.1
    have hi' : i < len := by rw [← hclen]; exact hi
    by_cases hlast : i + 1 < len
    · have : (i + 1) % c.length = i + 1 := by
        rw [hclen]; exact Nat.mod_eq_of_lt hlast
      rw [this, hstep]
      congr 2
    · have hieq : i + 1 = len := by omega
      have : (i + 1) % c.length = 0 := by
        rw [hclen, hieq, Nat.mod_self]
      rw [this, hstep]
      congr 2
      have hb : a + (i + 1) = b := by omega
      calc g (a + i + 1) = g (a + (i + 1)) := rfl
        _ = g b := by rw [hb]
        _ = g a := hgab.symm
        _ = g (a + 0) := by rw [Nat.add_zero]

/-- Acyclicity follows from any rank function that strictly decreases
along dependency edges; this is the practical way to certify a concrete
batch acyclic. -/
lemma acyclic_of_rank (defs : List ServiceDef) (rank : String → Nat)
    (h : ∀ s ∈ defs, ∀ t ∈ defs, s.depends_on = some t.name →
      t.name ≠ "" → rank t.name < rank s.name) :
    Acyclic defs := by
  rintro ⟨l, hcyc⟩
  have hpos : 0 < l.length := List.length_pos.mpr hcyc.nonempty
  have hdec : ∀ i (hi : i < l.length),
      rank ((l.get ⟨(i + 1) % l.length, Nat.mod_lt _ hpos⟩).name) <
        rank ((l.get ⟨i, hi⟩).name) := by
    intro i hi
    have hs : l.get ⟨i, hi⟩ ∈ l := List.get_mem _ _ _
    have ht : l.get ⟨(i + 1) % l.length, Nat.mod_lt _ hpos⟩ ∈ l :=
      List.get_mem _ _ _
    exact h _ (hcyc.mem _ hs) _ (hcyc.mem _ ht) (hcyc.closes i hi)
      (hcyc.names_ne _ ht)
  -- take an index of minimal rank and contradict the strict decrease
  haveI : Nonempty (Fin l.length) := ⟨⟨0, hpos⟩⟩
  obtain ⟨i₀, _, hmin⟩ := Finset.exists_min_image (Finset.univ : Finset (Fin l.length))
    (fun i => rank ((l.get i).name)) ⟨⟨0, hpos⟩, Finset.mem_univ _⟩
  have := hdec i₀.1 i₀.2
  have hle := hmin ⟨(i₀.1 + 1) % l.length, Nat.mod_lt _ hpos⟩ (Finset.mem_univ _)
  simp only [Fin.eta] at this hle
  omega

lemma remaining_ne_nil_of_length {remaining : List ServiceDef} {n : Nat}
    (hf : n + 1 = remaining.length) : remaining.isEmpty = false := by
  cases remaining with
  | nil => simp at hf
  | cons a tl => rfl

lemma sortLoop_ok_perm :
    ∀ fuel remaining deployed l, fuel = remaining.length →
      sortLoop fuel remaining deployed = .ok l → remaining.Perm l := by
  intro fuel
  induction fuel with
  | zero =>
    intro remaining deployed l hf h
    have hrem : remaining = [] := List.length_eq_zero.mp hf.symm
    subst hrem
    simp only [sortLoop] at h
    cases h
    exact List.Perm.refl _
  | succ n ih =>
    intro remaining deployed l hf h
    simp only [sortLoop, remaining_ne_nil_of_length hf, Bool.false_eq_true,
      if_false] at h
    cases hex : extractFirstEligible deployed remaining with
    | none => rw [hex] at h; cases h
    | some pair =>
      obtain ⟨s, rest⟩ := pair
      rw [hex] at h
      dsimp only at h
      cases hrec : sortLoop n rest (s.name :: deployed) with
      | error names => rw [hrec] at h; cases h
      | ok l' =>
        rw [hrec] at h
        cases h
        obtain ⟨pre, suf, h1, h2, _, _⟩ := extractFirstEligible_split hex
        have hlen : n = rest.length := by
          subst h1; subst h2
          simp at hf ⊢
          omega
        have hperm' := ih rest _ l' hlen hrec
        have hmid : remaining.Perm (s :: rest) := by
          rw [h1, h2]
          exact List.perm_middle
        exact hmid.trans (hperm'.cons s)

lemma sortLoop_ok_order :
    ∀ fuel remaining deployed l, fuel = remaining.length →
      sortLoop fuel remaining deployed = .ok l →
      ∀ i (hi : i < l.length) d, (l.get ⟨i, hi⟩).depends_on = some d →
        d ≠ "" → d ∈ deployed ∨ d ∈ (l.take i).map (·.name) := by
  intro fuel
  induction fuel with
  | zero =>
    intro remaining deployed l hf h
    have hrem : remaining = [] := List.length_eq_zero.mp hf.symm
    subst hrem
    simp only [sortLoop] at h
    cases h
    intro i hi
    simp at hi
  | succ n ih =>
    intro remaining deployed l hf h
    simp only [sortLoop, remaining_ne_nil_of_length hf, Bool.false_eq_true,
      if_false] at h
    cases hex : extractFirstEligible deployed remaining with
    | none => rw [hex] at h; cases h
    | some pair =>
      obtain ⟨s, rest⟩ := pair
      rw [hex] at h
      dsimp only at h
      cases hrec : sortLoop n rest (s.name :: deployed) with
      | error names => rw [hrec] at h; cases h
      | ok l' =>
        rw [hrec] at h
        cases h
        obtain ⟨pre, suf, h1, h2, _, hel⟩ := extractFirstEligible_split hex
        have hlen : n = rest.length := by
          subst h1; subst h2
          simp at hf ⊢
          omega
        intro i hi d hd hdne
        cases i with
        | zero =>
          left
          simp only [List.get] at hd
          unfold eligibleB at hel
          rw [hd] at hel
          have : deployed.contains d = true := by
            rcases Bool.or_eq_true_iff.mp hel with h' | h'
            · exact absurd (by simpa using h') hdne
            · exact h'
          simpa using this
        | succ i' =>
          have hi' : i' < l'.length := by
            simpa using Nat.lt_of_succ_lt_succ hi
          have := ih rest _ l' hlen hrec i' hi' d (by simpa using hd) hdne
          rcases this with hmem | hmem
          · rcases List.mem_cons.mp hmem with heq | hmem2
            · right
              simp [heq]
            · left; exact hmem2
          · right
            simp only [List.take, List.map]
            exact List.mem_cons_of_mem _ hmem

lemma sortLoop_error_spec :
    ∀ fuel remaining deployed L, fuel = remaining.length →
      sortLoop fuel remaining deployed = .error L →
      ∃ placed R, remaining.Perm (placed ++ R) ∧ L = R.map (·.name) ∧
        R ≠ [] ∧
        ∀ s ∈ R, eligibleB s (placed.map (·.name) ++ deployed) = false := by
  intro fuel
  induction fuel with
  | zero =>
    intro remaining deployed L hf h
    have hrem : remaining = [] := List.length_eq_zero.mp hf.symm
    subst hrem
    simp only [sortLoop] at h
    cases h
  | succ n ih =>
    intro remaining deployed L hf h
    simp only [sortLoop, remaining_ne_nil_of_length hf, Bool.false_eq_true,
      if_false] at h
    cases hex : extractFirstEligible deployed remaining with
    | none =>
      rw [hex] at h
      cases h
      refine ⟨[], remaining, by simp, rfl, ?_, ?_⟩
      · intro hempty
        subst hempty
        simp at hf
      · intro s hs
        simpa using extractFirstEligible_none hex s hs
    | some pair =>
      obtain ⟨s, rest⟩ := pair
      rw [hex] at h
      dsimp only at h
      cases hrec : sortLoop n rest (s.name :: deployed) with
      | ok l' => rw [hrec] at h; cases h
      | error names =>
        rw [hrec] at h
        cases h
        obtain ⟨pre, suf, h1, h2, _, _⟩ := extractFirstEligible_split hex
        have hlen : n = rest.length := by
          subst h1; subst h2
          simp at hf ⊢
          omega
        obtain ⟨placed', R', hperm', hL, hRne, hinel⟩ := ih rest _ _ hlen hrec
        refine ⟨s :: placed', R', ?_, hL, hRne, ?_⟩
        · have hmid : remaining.Perm (s :: rest) := by
            rw [h1, h2]
            exact List.perm_middle
          exact hmid.trans (hperm'.cons s)
        · intro t ht
          have := hinel t ht
          rw [← this]
          apply eligibleB_congr
          intro x
          simp only [List.map_cons, List.cons_append, List.mem_cons,
            List.mem_append]
          tauto

lemma names_injective {remaining : List ServiceDef}
    (hnodup : (remaining.map (·.name)).Nodup) :
    ∀ x ∈ remaining, ∀ y ∈ remaining, x.name = y.name → x = y :=
  fun _ hx _ hy hxy => List.inj_on_of_nodup_map hnodup hx hy hxy

lemma rest_nodup_names {pre suf : List ServiceDef} {s : ServiceDef}
    (hnodup : (((pre ++ s :: suf)).map (·.name)).Nodup) :
    (((pre ++ suf)).map (·.name)).Nodup := by
  have hsub : List.Sublist (pre ++ suf) (pre ++ s :: suf) :=
    (List.sublist_cons_self s suf).append_left pre
  exact List.Nodup.sublist (hsub.map (·.name)) hnodup

/-- If a subset `S` of the remaining batch is "stuck" — every member's
dependency names another member of `S` or a name absent from the whole
batch — then the resolver's scan can never place any member of `S` and
the loop ends in the `RuntimeError` branch. -/
lemma sortLoop_stuck (defs S : List ServiceDef) (hSne : S ≠ [])
    (htrapS : ∀ s ∈ S, ∃ d, s.depends_on = some d ∧ d ≠ "" ∧
      ((∃ t ∈ S, t.name = d) ∨ d ∉ defs.map (·.name))) :
    ∀ fuel remaining deployed, fuel = remaining.length →
      (∀ s ∈ S, s ∈ remaining) →
      (∀ s ∈ remaining, s ∈ defs) →
      ((remaining.map (·.name))).Nodup →
      (∀ nm ∈ deployed, nm ∈ defs.map (·.name)) →
      (∀ nm ∈ deployed, ∀ t ∈ S, t.name ≠ nm) →
      ∃ L, sortLoop fuel remaining deployed = .error L := by
  intro fuel
  induction fuel with
  | zero =>
    intro remaining deployed hf hS _ _ _ _
    have hrem : remaining = [] := List.length_eq_zero.mp hf.symm
    subst hrem
    obtain ⟨s₀, hs₀⟩ := List.exists_mem_of_ne_nil S hSne
    cases hS s₀ hs₀
  | succ n ih =>
    intro remaining deployed hf hS hsub hnodup hdep hdisj
    cases hex : extractFirstEligible deployed remaining with
    | none =>
      exact ⟨remaining.map (·.name), by
        simp [sortLoop, remaining_ne_nil_of_length hf, hex]⟩
    | some pair =>
      obtain ⟨s, rest⟩ := pair
      obtain ⟨pre, suf, h1, h2, _, hel⟩ := extractFirstEligible_split hex
      have hlen : n = rest.length := by
        subst h1; subst h2
        simp at hf ⊢
        omega
      -- the extracted definition cannot belong to S
      have hsnotS : s ∉ S := by
        intro hsS
        obtain ⟨d, hd, hdne, hcase⟩ := htrapS s hsS
        unfold eligibleB at hel
        rw [hd] at hel
        have hdmem : d ∈ deployed := by
          rcases Bool.or_eq_true_iff.mp hel with h' | h'
          · exact absurd (by simpa using h') hdne
          · simpa using h'
        rcases hcase with ⟨t, htS, htd⟩ | habs
        · exact hdisj d hdmem t htS htd
        · exact habs (hdep d hdmem)
      have hSrest : ∀ t ∈ S, t ∈ rest := by
        intro t htS
        have htrem : t ∈ remaining := hS t htS
        have htne : t ≠ s := fun he => hsnotS (he ▸ htS)
        rw [h1] at htrem
        rw [h2]
        rcases List.mem_append.mp htrem with hmem | hmem
        · exact List.mem_append.mpr (Or.inl hmem)
        · rcases List.mem_cons.mp hmem with heq | hmem2
          · exact absurd heq htne
          · exact List.mem_append.mpr (Or.inr hmem2)
      have hsrem : s ∈ remaining := by
        rw [h1]; exact List.mem_append.mpr (Or.inr (List.mem_cons_self _ _))
      have hnodup' : ((rest.map (·.name))).Nodup := by
        rw [h2]; rw [h1] at hnodup; exact rest_nodup_names hnodup
      have hsubrest : ∀ t ∈ rest, t ∈ defs := by
        intro t ht
        apply hsub
        rw [h1]
        rw [h2] at ht
        rcases List.mem_append.mp ht with hmem | hmem
        · exact List.mem_append.mpr (Or.inl hmem)
        · exact List.mem_append.mpr (Or.inr (List.mem_cons_of_mem _ hmem))
      have hdep' : ∀ nm ∈ (s.name :: deployed), nm ∈ defs.map (·.name) := by
        intro nm hnm
        rcases List.mem_cons.mp hnm with heq | hmem
        · subst heq
          exact List.mem_map_of_mem _ (hsub s hsrem)
        · exact hdep nm hmem
      have hdisj' : ∀ nm ∈ (s.name :: deployed), ∀ t ∈ S, t.name ≠ nm := by
        intro nm hnm t htS
        rcases List.mem_cons.mp hnm with heq | hmem
        · subst heq
          intro hname
          exact hsnotS (names_injective hnodup s hsrem t (hS t htS) hname.symm ▸ htS)
        · exact hdisj nm hmem t htS
      obtain ⟨L, hL⟩ := ih rest (s.name :: deployed) hlen hSrest hsubrest
        hnodup' hdep' hdisj'
      exact ⟨L, by
        simp [sortLoop, remaining_ne_nil_of_length hf, hex, hL]⟩

/-- On an acyclic batch whose dependency references all resolve within
the batch, every pass of the resolver's scan finds an eligible
definition, so the loop always succeeds. -/
lemma sortLoop_ok_of_acyclic (defs : List ServiceDef) (hacyc : Acyclic defs) :
    ∀ fuel remaining deployed, fuel = remaining.length →
      (∀ s ∈ remaining, s ∈ defs) →
      ((remaining.map (·.name))).Nodup →
      (∀ s ∈ remaining, ∀ d, s.depends_on = some d → d ≠ "" →
        d ∈ deployed ∨ d ∈ remaining.map (·.name)) →
      ∃ l, sortLoop fuel remaining deployed = .ok l := by
  intro fuel
  induction fuel with
  | zero =>
    intro remaining deployed _ _ _ _
    exact ⟨[], by simp [sortLoop]⟩
  | succ n ih =>
    intro remaining deployed hf hsub hnodup hclosure
    cases hex : extractFirstEligible deployed remaining with
    | none =>
      exfalso
      have hnone := extractFirstEligible_none hex
      have hne : remaining ≠ [] := by
        intro hempty; subst hempty; simp at hf
      have htrap : ∀ s ∈ remaining, ∃ d, s.depends_on = some d ∧ d ≠ "" ∧
          ∃ t ∈ remaining, t.name = d := by
        intro s hs
        have hinel := hnone s hs
        unfold eligibleB at hinel
        cases hd : s.depends_on with
        | none => rw [hd] at hinel; cases hinel
        | some d =>
          rw [hd] at hinel
          simp at hinel
          obtain ⟨hdne, hdnotdep⟩ := hinel
          have := hclosure s hs d hd hdne
          rcases this with hmem | hmem
          · exact absurd hmem hdnotdep
          · obtain ⟨t, ht, htn⟩ := List.mem_map.mp hmem
            exact ⟨d, rfl, hdne, t, ht, htn⟩
      exact hacyc (trap_has_cycle defs remaining hne hsub htrap)
    | some pair =>
      obtain ⟨s, rest⟩ := pair
      obtain ⟨pre, suf, h1, h2, _, _⟩ := extractFirstEligible_split hex
      have hlen : n = rest.length := by
        subst h1; subst h2
        simp at hf ⊢
        omega
      have hsrem : s ∈ remaining := by
        rw [h1]; exact List.mem_append.mpr (Or.inr (List.mem_cons_self _ _))
      have hsubrest : ∀ t ∈ rest, t ∈ defs := by
        intro t ht
        apply hsub
        rw [h1]
        rw [h2] at ht
        rcases List.mem_append.mp ht with hmem | hmem
        · exact List.mem_append.mpr (Or.inl hmem)
        · exact List.mem_append.mpr (Or.inr (List.mem_cons_of_mem _ hmem))
      have hmemrest : ∀ t, t ∈ rest → t ∈ remaining := by
        intro t ht
        rw [h1]
        rw [h2] at ht
        rcases List.mem_append.mp ht with hmem | hmem
        · exact List.mem_append.mpr (Or.inl hmem)
        · exact List.mem_append.mpr (Or.inr (List.mem_cons_of_mem _ hmem))
      have hnodup' : ((rest.map (·.name))).Nodup := by
        rw [h2]; rw [h1] at hnodup; exact rest_nodup_names hnodup
      have hclosure' : ∀ t ∈ rest, ∀ d, t.depends_on = some d → d ≠ "" →
          d ∈ (s.name :: deployed) ∨ d ∈ rest.map (·.name) := by
        intro t ht d hd hdne
        rcases hclosure t (hmemrest t ht) d hd hdne with hmem | hmem
        · exact Or.inl (List.mem_cons_of_mem _ hmem)
        · obtain ⟨u, hu, hun⟩ := List.mem_map.mp hmem
          rw [h1] at hu
          rcases List.mem_append.mp hu with hmem2 | hmem2
          · refine Or.inr (List.mem_map.mpr ⟨u, ?_, hun⟩)
            rw [h2]
            exact List.mem_append.mpr (Or.inl hmem2)
          · rcases List.mem_cons.mp hmem2 with heq | hmem3
            · subst heq
              exact Or.inl (hun ▸ List.mem_cons_self _ _)
            · refine Or.inr (List.mem_map.mpr ⟨u, ?_, hun⟩)
              rw [h2]
              exact List.mem_append.mpr (Or.inr hmem3)
      obtain ⟨l', hl'⟩ := ih rest (s.name :: deployed) hlen hsubrest hnodup'
        hclosure'
      exact ⟨s :: l', by
        simp [sortLoop, remaining_ne_nil_of_length hf, hex, hl']⟩

lemma find?_first {α : Type} (p : α → Bool) :
    ∀ pre (s : α) suf, (∀ x ∈ pre, p x = false) → p s = true →
      (pre ++ s :: suf).find? p = some s := by
  intro pre
  induction pre with
  | nil =>
    intro s suf _ hs
    simpa using List.find?_cons_of_pos _ hs
  | cons a tl ih =>
    intro s suf hpre hs
    have ha : p a = false := hpre a (List.mem_cons_self _ _)
    rw [List.cons_append, List.find?_cons_of_neg _ (by simp [ha])]
    exact ih s suf (fun x hx => hpre x (List.mem_cons_of_mem _ hx)) hs

lemma find?_congr_pred {α : Type} (p q : α → Bool) :
    ∀ l : List α, (∀ x ∈ l, p x = q x) → l.find? p = l.find? q := by
  intro l
  induction l with
  | nil => intro _; rfl
  | cons a tl ih =>
    intro h
    have ha := h a (List.mem_cons_self _ _)
    by_cases hp : p a
    · rw [List.find?_cons_of_pos _ hp, List.find?_cons_of_pos _ (ha ▸ hp)]
    · have hq : q a = false := by rw [← ha]; simpa using hp
      rw [List.find?_cons_of_neg _ (by simpa using hp),
        List.find?_cons_of_neg _ (by simp [hq])]
      exact ih (fun x hx => h x (List.mem_cons_of_mem _ hx))

lemma middle_name_fresh {pre suf : List ServiceDef} {s : ServiceDef}
    (hnodup : (((pre ++ s :: suf)).map (·.name)).Nodup) :
    (∀ a ∈ pre, a.name ≠ s.name) ∧ (∀ a ∈ suf, a.name ≠ s.name) := by
  rw [List.map_append, List.map_cons, List.nodup_append] at hnodup
  obtain ⟨_, h2, hdisj⟩ := hnodup
  constructor
  · intro a ha he
    exact hdisj (List.mem_map_of_mem _ ha) (he ▸ List.mem_cons_self _ _)
  · intro a ha he
    exact (List.nodup_cons.mp h2).1 (he ▸ List.mem_map_of_mem (·.name) ha)

/-- For well-formed input the scan is deterministic: step `k` of the loop
picks exactly the first eligible definition (in the preserved input
order) among those not yet placed. -/
lemma sortLoop_ok_greedy :
    ∀ fuel remaining deployed l, fuel = remaining.length →
      ((remaining.map (·.name))).Nodup →
      sortLoop fuel remaining deployed = .ok l →
      ∀ k (hk : k < l.length),
        (remaining.filter
          (fun t => !(((l.take k).map (·.name)).contains t.name))).find?
          (fun t => eligibleB t (((l.take k).map (·.name)) ++ deployed)) =
          some (l.get ⟨k, hk⟩) := by
  intro fuel
  induction fuel with
  | zero =>
    intro remaining deployed l hf _ h
    have hrem : remaining = [] := List.length_eq_zero.mp hf.symm
    subst hrem
    simp only [sortLoop] at h
    cases h
    intro k hk
    simp at hk
  | succ n ih =>
    intro remaining deployed l hf hnodup h
    simp only [sortLoop, remaining_ne_nil_of_length hf, Bool.false_eq_true,
      if_false] at h
    cases hex : extractFirstEligible deployed remaining with
    | none => rw [hex] at h; cases h
    | some pair =>
      obtain ⟨s, rest⟩ := pair
      rw [hex] at h
      dsimp only at h
      cases hrec : sortLoop n rest (s.name :: deployed) with
      | error names => rw [hrec] at h; cases h
      | ok l' =>
        rw [hrec] at h
        cases h
        obtain ⟨pre, suf, h1, h2, hpre, hel⟩ := extractFirstEligible_split hex
        have hlen : n = rest.length := by
          subst h1; subst h2
          simp at hf ⊢
          omega
        have hnodup' : ((rest.map (·.name))).Nodup := by
          rw [h2]; rw [h1] at hnodup; exact rest_nodup_names hnodup
        intro k hk
        cases k with
        | zero =>
          have hfilter :
              remaining.filter
                (fun t => !((([] : List String)).contains t.name)) =
                remaining := by
            apply (List.filter_congr (q := fun _ => true)
              (fun a _ => by simp)).trans
            exact List.filter_true _
          simp only [List.take_zero, List.map_nil, List.nil_append]
          rw [hfilter]
          rw [h1]
          exact find?_first _ pre s suf hpre hel
        | succ k' =>
          have hk' : k' < l'.length := by simpa using Nat.lt_of_succ_lt_succ hk
          have hIH := ih rest (s.name :: deployed) l' hlen hnodup' hrec k' hk'
          have hfresh := middle_name_fresh (h1 ▸ hnodup)
          have hfilter2 :
              remaining.filter
                (fun t => !((s.name :: ((l'.take k').map (·.name))).contains
                  t.name)) =
              rest.filter
                (fun t => !(((l'.take k').map (·.name)).contains t.name)) := by
            rw [h1, h2, List.filter_append, List.filter_append]
            congr 1
            · apply List.filter_congr
              intro a ha
              simp [hfresh.1 a ha]
            · rw [List.filter_cons]
              have hcontains : ((s.name :: ((l'.take k').map
                  (·.name))).contains s.name) = true := by simp
              simp only [hcontains, Bool.not_true, Bool.false_eq_true,
                if_false]
              apply List.filter_congr
              intro a ha
              simp [hfresh.2 a ha]
          have hpredeq : ∀ t ∈ rest.filter
              (fun t => !(((l'.take k').map (·.name)).contains t.name)),
              eligibleB t ((s.name :: ((l'.take k').map (·.name))) ++ deployed)
                = eligibleB t (((l'.take k').map (·.name)) ++
                    (s.name :: deployed)) := by
            intro t _
            apply eligibleB_congr
            intro x
            simp only [List.cons_append, List.mem_cons, List.mem_append]
            tauto
          have hnames : (((s :: l').take (k' + 1)).map (·.name)) =
              s.name :: ((l'.take k').map (·.name)) := by
            simp
          have hget : ((s :: l').get ⟨k' + 1, hk⟩) = l'.get ⟨k', hk'⟩ := rfl
          rw [hget, hnames, hfilter2, find?_congr_pred _ _ _ hpredeq]
          exact hIH

/-- A container's `short_id` as a string (the runtime assigns ids from a
counter in this model). -/
def cidStr (n : Nat) : String := toString n

/-- A container known to the modelled runtime gateway. -/
structure DContainer where
  cid : Nat
  cname : Option String
  image : String
  ports : List (String × String) := []
  env : List (String × String) := []
  running : Bool
  deriving Repr, DecidableEq

/-- The modelled docker daemon: a fresh-id counter and the containers
currently present. -/
structure DockerState where
  nextId : Nat
  containers : List DContainer
  deriving Repr, DecidableEq

/-- `client.containers.run(image=..., name=..., detach=True, ports=...,
environment=...)`: create and start a container, returning its id. -/
def runContainer (st : DockerState) (nm : Option String) (img : String)
    (ports env : List (String × String)) : Nat × DockerState :=
  (st.nextId,
   { nextId := st.nextId + 1,
     containers := st.containers ++
       [{ cid := st.nextId, cname := nm, image := img, ports := ports,
          env := env, running := true }] })

/-- `container.stop()`. -/
def stopContainer (st : DockerState) (cid : Nat) : DockerState :=
  { st with containers := st.containers.map
              (fun c => if c.cid = cid then { c with running := false }
                        else c) }

/-- `container.remove()`. -/
def removeContainer (st : DockerState) (cid : Nat) : DockerState :=
  { st with containers := st.containers.filter (fun c => c.cid ≠ cid) }

/-- `deploy_group`s local-build branch (`server.py` lines 391-397): an
image reference containing `/` or `.` is built and retagged
`{name}:latest`. -/
def imageUsed (nm img : String) : String :=
  if img.data.contains '/' || img.data.contains '.' then nm ++ ":latest"
  else img

/-- The in-place rewrite of a service's `wait_condition` dict
(`server.py` lines 417-423): for `tcp` conditions `host` is overwritten
with the service's `depends_on` value (possibly `None`); for `log`
conditions `container_id` is overwritten with
`deployed_containers.get(depends_on)`. -/
def substCondition (sdef : ServiceDef) (deployed : List (String × String))
    (c : WaitCondition) : WaitCondition :=
  if c.type = some "tcp" then
    { c with host := sdef.depends_on }
  else if c.type = some "log" then
    { c with container_id :=
        match sdef.depends_on with
        | none => none
        | some d => deployed.lookup d }
  else c

/-- Structured model of the `RuntimeError`s `deploy_group` raises. -/
inductive DeployErr where
  /-- `RuntimeError("Circular dependency or missing dependency in: {ns}")` -/
  | cycleOrMissing (unresolved : List String)
  /-- `RuntimeError("Dependency not met for {name}: {condition}")` -/
  | dependencyNotMet (service : String) (condition : WaitCondition)
  deriving Repr, DecidableEq

/-- The deployment loop of `deploy_group` (`server.py` lines 385-431)
over the resolver-sorted list.  `deployed` is the `deployed_containers`
dict (latest entry first), `upd` records the conditions written in place
into the callers service dicts (keyed by service name; the source
mutates the shared dict objects and this model replays those writes on
the callers list afterwards). -/
def deployLoop (probe : WaitCondition → Bool) :
    List ServiceDef → List (String × String) →
    List (String × WaitCondition) → DockerState →
    Except DeployErr (List (String × String)) × DockerState ×
      List (String × WaitCondition)
  | [], deployed, upd, st => (.ok deployed, st, upd)
  | sdef :: rest, deployed, upd, st =>
    let img := imageUsed sdef.name sdef.image
    let r := runContainer st (some sdef.name) img sdef.ports sdef.env_vars
    let deployed1 := (sdef.name, cidStr r.1) :: deployed
    match sdef.wait_condition with
    | none => deployLoop probe rest deployed1 upd r.2
    | some c =>
      let c1 := substCondition sdef deployed1 c
      let upd1 := (sdef.name, c1) :: upd
      if probe c1 then deployLoop probe rest deployed1 upd1 r.2
      else
        (.error (.dependencyNotMet sdef.name c1),
         removeContainer (stopContainer r.2 r.1) r.1, upd1)

/-- Replay the in-place `wait_condition` writes on the callers
definitions list: in the source the dict objects are shared between the
callers list and the sorted working list, so every write through the
working list is visible in the callers list (the caller-visible state
this function computes). -/
def applyUpdates (defs : List ServiceDef)
    (upd : List (String × WaitCondition)) : List ServiceDef :=
  defs.map (fun s =>
    match upd.lookup s.name with
    | some c => { s with wait_condition := some c }
    | none => s)

/-- `deploy_group(definitions)` (`server.py` lines 295-436): sort by
dependencies, then deploy each service in order, probing its (rewritten)
wait condition with a 60-second budget and cleaning up only the failing
service's container on probe failure.  `probe c` is the outcome of
`dependency_manager.wait_for_condition(c, timeout=60)`.  Returns the
call's result, the runtime state, and the caller-visible definitions
list (reflecting the in-place condition writes). -/
def deploy_group (probe : WaitCondition → Bool) (definitions : List ServiceDef)
    (st : DockerState) :
    Except DeployErr (List (String × String)) × DockerState ×
      List ServiceDef :=
  match sort_services_by_dependencies definitions with
  | .error names => (.error (.cycleOrMissing names), st, definitions)
  | .ok sorted =>
    match deployLoop probe sorted [] [] st with
    | (res, st1, upd) => (res, st1, applyUpdates definitions upd)

/-- The containers `deployLoop` creates for a prefix of services,
starting at id `base` (specification function used by the theorems). -/
def createdFor : List ServiceDef → Nat → List DContainer
  | [], _ => []
  | s :: rest, base =>
    { cid := base, cname := some s.name, image := imageUsed s.name s.image,
      ports := s.ports, env := s.env_vars, running := true } ::
      createdFor rest (base + 1)

/-- The `deployed_containers` dict after processing a list of services
starting at id `base` on top of `acc` (specification function). -/
def deployedFor : List ServiceDef → Nat → List (String × String) →
    List (String × String)
  | [], _, acc => acc
  | s :: rest, base, acc =>
    deployedFor rest (base + 1) ((s.name, cidStr base) :: acc)

/-- The condition-write log after processing a list of services starting
at id `base` (specification function mirroring `deployLoop`s `upd`
accumulation on the all-probes-pass path). -/
def updAcc : List ServiceDef → Nat → List (String × String) →
    List (String × WaitCondition) → List (String × WaitCondition)
  | [], _, _, upd => upd
  | s :: rest, base, dep, upd =>
    let dep1 := (s.name, cidStr base) :: dep
    match s.wait_condition with
    | none => updAcc rest (base + 1) dep1 upd
    | some c => updAcc rest (base + 1) dep1
        ((s.name, substCondition s dep1 c) :: upd)

lemma createdFor_running : ∀ pre base, ∀ k ∈ createdFor pre base,
    k.running = true := by
  intro pre
  induction pre with
  | nil => intro base k hk; cases hk
  | cons s rest ih =>
    intro base k hk
    rcases List.mem_cons.mp hk with rfl | hk2
    · rfl
    · exact ih (base + 1) k hk2

lemma runContainer_wf {st : DockerState} {nm img ports env}
    (hwf : ∀ k ∈ st.containers, k.cid < st.nextId) :
    ∀ k ∈ (runContainer st nm img ports env).2.containers,
      k.cid < (runContainer st nm img ports env).2.nextId := by
  intro k hk
  unfold runContainer at hk ⊢
  simp only at hk ⊢
  rcases List.mem_append.mp hk with hmem | hmem
  · exact Nat.lt_succ_of_lt (hwf k hmem)
  · rcases List.mem_cons.mp hmem with rfl | habs
    · exact Nat.lt_succ_self _
    · cases habs

lemma stop_remove_created (st : DockerState) (nm : Option String)
    (img : String) (p e : List (String × String))
    (hwf : ∀ k ∈ st.containers, k.cid < st.nextId) :
    (removeContainer
      (stopContainer
        { nextId := st.nextId + 1,
          containers := st.containers ++
            [{ cid := st.nextId, cname := nm, image := img, ports := p,
               env := e, running := true }] } st.nextId)
      st.nextId).containers = st.containers := by
  unfold stopContainer removeContainer
  simp only [List.map_append, List.filter_append, List.map_cons,
    List.map_nil, List.filter_cons, List.filter_nil]
  have hmap : st.containers.map
      (fun c => if c.cid = st.nextId then { c with running := false }
                else c) = st.containers := by
    have hpt : ∀ c ∈ st.containers,
        (if c.cid = st.nextId then { c with running := false } else c) =
          id c := by
      intro c hc
      have : c.cid ≠ st.nextId := Nat.ne_of_lt (hwf c hc)
      simp [this]
    rw [List.map_congr_left hpt, List.map_id]
  rw [hmap]
  have hfil : st.containers.filter (fun c => c.cid ≠ st.nextId) =
      st.containers := by
    apply (List.filter_congr (q := fun _ => true) ?_).trans
      (List.filter_true _)
    intro c hc
    simp [Nat.ne_of_lt (hwf c hc)]
  rw [hfil]
  simp

/-- Exact characterization of the deployment loop on the probe-failure
path: the failing service sits at position `|pre|` of the sorted list,
its substituted condition probed false, the error names it and carries
that condition, the final runtime state holds exactly the original
containers plus the ones created for the earlier services of this batch
(all still running, none stopped or removed), and the failing service's
own container has been removed. -/
lemma deployLoop_error_spec (probe : WaitCondition → Bool) :
    ∀ sorted deployed upd st n c st' upd',
      (∀ k ∈ st.containers, k.cid < st.nextId) →
      deployLoop probe sorted deployed upd st =
        (.error (.dependencyNotMet n c), st', upd') →
      ∃ pre sdef post cw,
        sorted = pre ++ sdef :: post ∧ n = sdef.name ∧
        sdef.wait_condition = some cw ∧
        c = substCondition sdef
          ((sdef.name, cidStr (st.nextId + pre.length)) ::
            deployedFor pre st.nextId deployed) cw ∧
        probe c = false ∧
        st'.containers = st.containers ++ createdFor pre st.nextId ∧
        (∀ k ∈ st'.containers, k.cid ≠ st.nextId + pre.length) := by
  intro sorted
  induction sorted with
  | nil =>
    intro deployed upd st n c st' upd' _ h
    simp [deployLoop] at h
  | cons sdef rest ih =>
    intro deployed upd st n c st' upd' hwf h
    have hrc1 : (runContainer st (some sdef.name)
        (imageUsed sdef.name sdef.image) sdef.ports sdef.env_vars).1 =
        st.nextId := rfl
    have hrc2 : (runContainer st (some sdef.name)
        (imageUsed sdef.name sdef.image) sdef.ports sdef.env_vars).2 =
        { nextId := st.nextId + 1,
          containers := st.containers ++
            [{ cid := st.nextId, cname := some sdef.name,
               image := imageUsed sdef.name sdef.image,
               ports := sdef.ports, env := sdef.env_vars,
               running := true }] } := rfl
    simp only [deployLoop] at h
    cases hw : sdef.wait_condition with
    | none =>
      rw [hw] at h
      dsimp only at h
      rw [hrc1, hrc2] at h
      obtain ⟨pre', sdef', post', cw, he, hn, hcw, hc, hpf, hst, hcid⟩ :=
        ih _ _ _ n c st' upd'
          (by
            intro k hk
            simp only at hk
            rcases List.mem_append.mp hk with hmem | hmem
            · exact Nat.lt_succ_of_lt (hwf k hmem)
            · rcases List.mem_cons.mp hmem with rfl | habs
              · exact Nat.lt_succ_self _
              · cases habs) h
      refine ⟨sdef :: pre', sdef', post', cw, by simp [he], hn, hcw, ?_, hpf,
        ?_, ?_⟩
      · rw [hc]
        have h3 : st.nextId + 1 + pre'.length =
            st.nextId + (sdef :: pre').length := by
          simp only [List.length_cons]
          omega
        simp only at hc ⊢
        rw [show st.nextId + (sdef :: pre').length =
          st.nextId + 1 + pre'.length from h3.symm]
        rfl
      · rw [hst]
        simp only [createdFor, List.append_assoc, List.singleton_append]
      · intro k hk
        have := hcid k hk
        simp only [List.length_cons] at this ⊢
        omega
    | some c0 =>
      rw [hw] at h
      dsimp only at h
      rw [hrc1, hrc2] at h
      by_cases hp : probe (substCondition sdef
          ((sdef.name, cidStr st.nextId) :: deployed) c0)
      · rw [if_pos hp] at h
        obtain ⟨pre', sdef', post', cw, he, hn, hcw, hc, hpf, hst, hcid⟩ :=
          ih _ _ _ n c st' upd'
            (by
              intro k hk
              simp only at hk
              rcases List.mem_append.mp hk with hmem | hmem
              · exact Nat.lt_succ_of_lt (hwf k hmem)
              · rcases List.mem_cons.mp hmem with rfl | habs
                · exact Nat.lt_succ_self _
                · cases habs) h
        refine ⟨sdef :: pre', sdef', post', cw, by simp [he], hn, hcw, ?_,
          hpf, ?_, ?_⟩
        · rw [hc]
          have h3 : st.nextId + 1 + pre'.length =
              st.nextId + (sdef :: pre').length := by
            simp only [List.length_cons]
            omega
          rw [show st.nextId + (sdef :: pre').length =
            st.nextId + 1 + pre'.length from h3.symm]
          rfl
        · rw [hst]
          simp only [createdFor, List.append_assoc, List.singleton_append]
        · intro k hk
          have := hcid k hk
          simp only [List.length_cons] at this ⊢
          omega
      · rw [if_neg hp] at h
        injection h with h1 h23
        injection h23 with h2 h3
        injection h1 with h1
        injection h1 with hn hc
        refine ⟨[], sdef, rest, c0, rfl, hn.symm, hw, ?_, ?_, ?_, ?_⟩
        · rw [← hc]
          simp [deployedFor]
        · rw [← hc]
          simpa using hp
        · rw [← h2, stop_remove_created st _ _ _ _ hwf]
          simp [createdFor]
        · intro k hk
          rw [← h2, stop_remove_created st _ _ _ _ hwf] at hk
          have := hwf k hk
          simp only [List.length_nil]
          omega

/-- Exact characterization of the deployment loop on the all-probes-pass
path: the result maps each service to its freshly assigned container id,
the runtime gained exactly one running container per service, and the
condition-write log is the `updAcc` replay. -/
lemma deployLoop_ok_spec (probe : WaitCondition → Bool) :
    ∀ sorted deployed upd st res st' upd',
      deployLoop probe sorted deployed upd st = (.ok res, st', upd') →
      res = deployedFor sorted st.nextId deployed ∧
      st' = { nextId := st.nextId + sorted.length,
              containers := st.containers ++ createdFor sorted st.nextId } ∧
      upd' = updAcc sorted st.nextId deployed upd := by
  intro sorted
  induction sorted with
  | nil =>
    intro deployed upd st res st' upd' h
    simp only [deployLoop] at h
    injection h with h1 h23
    injection h23 with h2 h3
    injection h1 with h1
    refine ⟨h1.symm, ?_, h3.symm⟩
    rw [← h2]
    simp [createdFor, deployedFor]
  | cons sdef rest ih =>
    intro deployed upd st res st' upd' h
    have hrc2 : (runContainer st (some sdef.name)
        (imageUsed sdef.name sdef.image) sdef.ports sdef.env_vars).2 =
        { nextId := st.nextId + 1,
          containers := st.containers ++
            [{ cid := st.nextId, cname := some sdef.name,
               image := imageUsed sdef.name sdef.image,
               ports := sdef.ports, env := sdef.env_vars,
               running := true }] } := rfl
    simp only [deployLoop] at h
    cases hw : sdef.wait_condition with
    | none =>
      rw [hw] at h
      dsimp only at h
      rw [hrc2] at h
      obtain ⟨hres, hst, hupd⟩ := ih _ _ _ _ _ _ h
      refine ⟨?_, ?_, ?_⟩
      · rw [hres]
        rfl
      · rw [hst]
        simp only [createdFor, List.append_assoc, List.singleton_append,
          List.length_cons]
        congr 1
        omega
      · rw [hupd]
        have hrc1 : (runContainer st (some sdef.name)
            (imageUsed sdef.name sdef.image) sdef.ports sdef.env_vars).1 =
            st.nextId := rfl
        simp [updAcc, hw, hrc1]
    | some c0 =>
      rw [hw] at h
      dsimp only at h
      have hrc1 : (runContainer st (some sdef.name)
          (imageUsed sdef.name sdef.image) sdef.ports sdef.env_vars).1 =
          st.nextId := rfl
      rw [hrc1, hrc2] at h
      by_cases hp : probe (substCondition sdef
          ((sdef.name, cidStr st.nextId) :: deployed) c0)
      · rw [if_pos hp] at h
        obtain ⟨hres, hst, hupd⟩ := ih _ _ _ _ _ _ h
        refine ⟨?_, ?_, ?_⟩
        · rw [hres]
          rfl
        · rw [hst]
          simp only [createdFor, List.append_assoc, List.singleton_append,
            List.length_cons]
          congr 1
          omega
        · rw [hupd]
          have hrc1 : (runContainer st (some sdef.name)
              (imageUsed sdef.name sdef.image) sdef.ports sdef.env_vars).1 =
              st.nextId := rfl
          simp [updAcc, hw, hrc1]
      · rw [if_neg hp] at h
        cases h

/-- Decidable form of "this definition's dependency reference resolves
inside the batch (or is falsy)". -/
def depResolved (defs : List ServiceDef) (s : ServiceDef) : Bool :=
  match s.depends_on with
  | none => true
  | some d => d == "" || (defs.map (·.name)).contains d

/-- `x` directly depends on `y` within the batch: `x`'s `depends_on`
names `y` (a nonempty name, since empty references are falsy and ignored
by the resolver). -/
def DependsDirect (defs : List ServiceDef) (x y : ServiceDef) : Prop :=
  x ∈ defs ∧ y ∈ defs ∧ y.name ≠ "" ∧ x.depends_on = some y.name

/-- Transitive dependency between batch definitions. -/
def TransDepends (defs : List ServiceDef) : ServiceDef → ServiceDef → Prop :=
  Relation.TransGen (DependsDirect defs)

lemma indexOf_lt_of_mem_take {α : Type} [DecidableEq α] {l : List α}
    {a : α} {i : Nat} (h : a ∈ l.take i) : l.indexOf a < i := by
  induction l generalizing i with
  | nil => simp at h
  | cons b tl ih =>
    cases i with
    | zero => simp at h
    | succ m =>
      rw [List.take_succ_cons] at h
      rcases List.mem_cons.mp h with rfl | h2
      · simp [List.indexOf_cons_self]
      · by_cases hba : b = a
        · subst hba
          simp [List.indexOf_cons_self]
        · rw [List.indexOf_cons_ne _ hba]
          exact Nat.succ_lt_succ (ih h2)

lemma depResolved_spec {defs : List ServiceDef} {s : ServiceDef}
    (h : depResolved defs s = true) :
    ∀ d, s.depends_on = some d → d ≠ "" → d ∈ defs.map (·.name) := by
  intro d hd hdne
  unfold depResolved at h
  rw [hd] at h
  rcases Bool.or_eq_true_iff.mp h with h' | h'
  · exact absurd (by simpa using h') hdne
  · simpa using h'

/-- C2: on a batch with unique names, fully resolving references and an
acyclic dependency graph, `sort_services_by_dependencies` succeeds with a
permutation of the input in which every definition is placed after every
definition it transitively depends on, and each position `k` of the
output is exactly the first eligible definition in a left-to-right scan
of the not-yet-placed input (preserving input order) — a deterministic,
input-order-stable topological order. -/
theorem sort_services_topological (defs : List ServiceDef)
    (hnodup : ((defs.map (·.name))).Nodup)
    (hclosed : ∀ s ∈ defs, depResolved defs s = true)
    (hacyc : Acyclic defs) :
    ∃ l, sort_services_by_dependencies defs = .ok l ∧ l.Perm defs ∧
      (∀ x y, TransDepends defs x y → l.indexOf y < l.indexOf x) ∧
      (∀ k (hk : k < l.length),
        (defs.filter
          (fun t => !(((l.take k).map (·.name)).contains t.name))).find?
          (fun t => eligibleB t (((l.take k).map (·.name)) ++ [])) =
          some (l.get ⟨k, hk⟩)) := by
  obtain ⟨l, hok⟩ := sortLoop_ok_of_acyclic defs hacyc defs.length defs []
    rfl (fun _ hs => hs) hnodup
    (fun s hs d hd hdne => Or.inr (depResolved_spec (hclosed s hs) d hd hdne))
  have hperm : defs.Perm l := sortLoop_ok_perm defs.length defs [] l rfl hok
  have hpermnames : (defs.map (·.name)).Perm (l.map (·.name)) :=
    hperm.map (·.name)
  have hlnodupnames : ((l.map (·.name))).Nodup := hpermnames.nodup_iff.mp hnodup
  have hlnodup : l.Nodup := List.Nodup.of_map _ hlnodupnames
  have horder := sortLoop_ok_order defs.length defs [] l rfl hok
  refine ⟨l, hok, hperm.symm, ?_, ?_⟩
  · -- transitive dependencies come earlier
    have hdir : ∀ x y, DependsDirect defs x y →
        l.indexOf y < l.indexOf x := by
      intro x y hxy
      obtain ⟨hx, hy, hyne, hdep⟩ := hxy
      have hxl : x ∈ l := hperm.mem_iff.mp hx
      have hyl : y ∈ l := hperm.mem_iff.mp hy
      have hxi : l.indexOf x < l.length := List.indexOf_lt_length.mpr hxl
      have hgetx : l.get ⟨l.indexOf x, hxi⟩ = x := List.indexOf_get hxi
      have := horder (l.indexOf x) hxi y.name (by rw [hgetx, hdep]) hyne
      rcases this with habs | hmem
      · cases habs
      · obtain ⟨u, hu, hun⟩ := List.mem_map.mp hmem
        have hul : u ∈ l := List.mem_of_mem_take hu
        have huy : u = y := names_injective hlnodupnames u hul y hyl hun
        subst huy
        exact indexOf_lt_of_mem_take hu
    intro x y hxy
    induction hxy with
    | single h => exact hdir _ _ h
    | tail _ hlast ih => exact Nat.lt_trans (hdir _ _ hlast) ih
  · exact sortLoop_ok_greedy defs.length defs [] l rfl hnodup hok

/-- Witness batch for the resolver claims: `db` has no dependency,
`api` depends on `db` through a TCP condition. -/
def exTcpCond : WaitCondition :=
  { type := some "tcp", host := some "placeholder", port := some 5432 }

/-- Witness service without dependencies. -/
def exDb : ServiceDef := { name := "db", image := "postgres15" }

/-- Witness service depending on `db`. -/
def exApi : ServiceDef :=
  { name := "api", image := "myapi", depends_on := some "db",
    wait_condition := some exTcpCond }

/-- Witness batch. -/
def exDefs : List ServiceDef := [exDb, exApi]

/-- Witness for `sort_services_topological` at the concrete two-service
batch, certifying acyclicity through an explicit rank function. -/
theorem sort_services_topological_witness :
    ((exDefs.map (·.name))).Nodup ∧
    (∀ s ∈ exDefs, depResolved exDefs s = true) ∧
    (∃ l, sort_services_by_dependencies exDefs = .ok l ∧ l.Perm exDefs ∧
      (∀ x y, TransDepends exDefs x y → l.indexOf y < l.indexOf x) ∧
      (∀ k (hk : k < l.length),
        (exDefs.filter
          (fun t => !(((l.take k).map (·.name)).contains t.name))).find?
          (fun t => eligibleB t (((l.take k).map (·.name)) ++ [])) =
          some (l.get ⟨k, hk⟩))) :=
  ⟨by decide, by decide,
   sort_services_topological exDefs (by decide) (by decide)
     (acyclic_of_rank exDefs (fun s => if s = "db" then 0 else 1)
       (by decide))⟩

/-- C3: a batch with unique names containing a dependency cycle, or a
dependency reference naming no definition of the batch, is rejected by
the resolver with an error listing exactly the names of the definitions
the scan could not place (a nonempty set no member of which is eligible
given everything outside it), and — because `deploy_group` sorts before
it touches the runtime — the failing `deploy_group` call leaves the
runtime state untouched and creates no container, and the caller's
definitions are not mutated. -/
theorem sort_rejects_cycle_or_missing (probe : WaitCondition → Bool)
    (defs : List ServiceDef) (st : DockerState)
    (hnodup : ((defs.map (·.name))).Nodup)
    (hbad : (∃ cyc, IsDepCycle defs cyc) ∨
      (∃ s ∈ defs, depResolved defs s = false)) :
    ∃ L, sort_services_by_dependencies defs = .error L ∧ L ≠ [] ∧
      (∃ placed R, defs.Perm (placed ++ R) ∧ L = R.map (·.name) ∧
        ∀ s ∈ R, eligibleB s (placed.map (·.name)) = false) ∧
      deploy_group probe defs st = (.error (.cycleOrMissing L), st, defs) := by
  have hstuck : ∃ L, sortLoop defs.length defs [] = .error L := by
    rcases hbad with ⟨cyc, hcyc⟩ | ⟨s, hs, hres⟩
    · -- a cycle is a trap set
      apply sortLoop_stuck defs cyc hcyc.nonempty
      · intro s hsc
        obtain ⟨i, hget⟩ := List.mem_iff_get.mp hsc
        have hpos : 0 < cyc.length := List.length_pos.mpr hcyc.nonempty
        have hnext := hcyc.closes i.1 i.2
        refine ⟨(cyc.get ⟨(i.1 + 1) % cyc.length, Nat.mod_lt _ hpos⟩).name,
          ?_, ?_, ?_⟩
        · rw [← hget]
          simpa using hnext
        · exact hcyc.names_ne _ (List.get_mem _ _ _)
        · exact Or.inl ⟨_, List.get_mem _ _ _, rfl⟩
      · rfl
      · exact fun t ht => hcyc.mem t ht
      · exact fun t ht => ht
      · exact hnodup
      · intro nm hnm; cases hnm
      · intro nm hnm; cases hnm
    · -- a dangling reference is a one-element trap set
      apply sortLoop_stuck defs [s] (by simp)
      · intro t ht
        rcases List.mem_cons.mp ht with rfl | habs
        · unfold depResolved at hres
          cases hd : t.depends_on with
          | none => rw [hd] at hres; cases hres
          | some d =>
            rw [hd] at hres
            simp only [Bool.or_eq_false_iff] at hres
            refine ⟨d, rfl, by simpa using hres.1, Or.inr ?_⟩
            simpa using hres.2
        · cases habs
      · rfl
      · intro t ht
        rcases List.mem_cons.mp ht with rfl | habs
        · exact hs
        · cases habs
      · exact fun t ht => ht
      · exact hnodup
      · intro nm hnm; cases hnm
      · intro nm hnm; cases hnm
  obtain ⟨L, hL⟩ := hstuck
  obtain ⟨placed, R, hperm, hLmap, hRne, hinel⟩ :=
    sortLoop_error_spec defs.length defs [] L rfl hL
  refine ⟨L, hL, ?_, ⟨placed, R, hperm, hLmap, ?_⟩, ?_⟩
  · rw [hLmap]
    intro habs
    exact hRne (List.map_eq_nil_iff.mp habs)
  · intro s hsR
    have := hinel s hsR
    simpa using this
  · unfold deploy_group
    rw [show sort_services_by_dependencies defs = .error L from hL]

/-- Witness batch with a dangling dependency reference. -/
def exGhostDef : ServiceDef :=
  { name := "web", image := "nginx", depends_on := some "ghost" }

/-- Witness for `sort_rejects_cycle_or_missing` at a concrete batch whose
single definition references a name absent from the batch. -/
theorem sort_rejects_cycle_or_missing_witness :
    (([exGhostDef].map (·.name))).Nodup ∧
    (∃ s ∈ [exGhostDef], depResolved [exGhostDef] s = false) ∧
    (∃ L, sort_services_by_dependencies [exGhostDef] = .error L ∧ L ≠ [] ∧
      (∃ placed R, List.Perm [exGhostDef] (placed ++ R) ∧
        L = R.map (·.name) ∧
        ∀ s ∈ R, eligibleB s (placed.map (·.name)) = false) ∧
      deploy_group (fun _ => true) [exGhostDef] ⟨0, []⟩ =
        (.error (.cycleOrMissing L), ⟨0, []⟩, [exGhostDef])) :=
  ⟨by decide, by decide,
   sort_rejects_cycle_or_missing (fun _ => true) [exGhostDef] ⟨0, []⟩
     (by decide) (Or.inr (by decide))⟩

/-- C1: whenever a `deploy_group` call aborts with the dependency-not-met
error, the failing service sits at some position of the sorted batch,
the error names that service and carries its (substituted) wait
condition, whose probe returned false; the final runtime state contains
exactly the pre-existing containers plus one still-running container for
each earlier service of the batch (none stopped, none removed — no
rollback), while the failing service's just-created container (id
`st.nextId + |pre|`) has been stopped and removed and is absent from the
final state. -/
theorem deploy_group_failed_probe_cleanup (probe : WaitCondition → Bool)
    (defs : List ServiceDef) (st : DockerState) (n : String)
    (c : WaitCondition) (st' : DockerState) (defs' : List ServiceDef)
    (hwf : ∀ k ∈ st.containers, k.cid < st.nextId)
    (h : deploy_group probe defs st =
      (.error (.dependencyNotMet n c), st', defs')) :
    ∃ sorted pre sdef post cw,
      sort_services_by_dependencies defs = .ok sorted ∧
      sorted = pre ++ sdef :: post ∧
      n = sdef.name ∧ sdef.wait_condition = some cw ∧
      c = substCondition sdef
        ((sdef.name, cidStr (st.nextId + pre.length)) ::
          deployedFor pre st.nextId []) cw ∧
      probe c = false ∧
      st'.containers = st.containers ++ createdFor pre st.nextId ∧
      (∀ k ∈ createdFor pre st.nextId, k.running = true) ∧
      (∀ k ∈ st'.containers, k.cid ≠ st.nextId + pre.length) := by
  unfold deploy_group at h
  cases hsort : sort_services_by_dependencies defs with
  | error names =>
    rw [hsort] at h
    dsimp only at h
    injection h with h1 _
    injection h1 with h1
    cases h1
  | ok sorted =>
    rw [hsort] at h
    dsimp only at h
    rcases hdl : deployLoop probe sorted [] [] st with ⟨res, st1, upd⟩
    rw [hdl] at h
    dsimp only at h
    injection h with h1 h23
    injection h23 with h2 h3
    obtain ⟨pre, sdef, post, cw, he, hn, hcw, hc, hpf, hst, hcid⟩ :=
      deployLoop_error_spec probe sorted [] [] st n c st1 upd hwf
        (by rw [hdl, h1])
    subst h2
    exact ⟨sorted, pre, sdef, post, cw, rfl, he, hn, hcw, hc, hpf, hst,
      createdFor_running pre st.nextId, hcid⟩

/-- Witness probe for the deploy-group failure claim: every probe times
out. -/
def exProbeFalse : WaitCondition → Bool := fun _ => false

/-- Witness batch for deploy-group failure: `api` depends on `db` with a
TCP wait condition that never succeeds. -/
def exFailDefs : List ServiceDef := [exDb, exApi]

/-- The condition the failing call reports: `exTcpCond` with `host`
rewritten to the `depends_on` value. -/
def exFailCond : WaitCondition := { exTcpCond with host := some "db" }

/-- The runtime state after the failing witness call: `db`'s container
(id 0) is still present and running; `api`'s container (id 1) was
created, stopped and removed. -/
def exFailState : DockerState :=
  ⟨2, [{ cid := 0, cname := some "db", image := "postgres15", ports := [],
         env := [], running := true }]⟩

/-- Witness for `deploy_group_failed_probe_cleanup` at the concrete
two-service batch whose second service's probe times out. -/
theorem deploy_group_failed_probe_cleanup_witness :
    (∀ k ∈ (⟨0, []⟩ : DockerState).containers, k.cid < 0) ∧
    (∃ sorted pre sdef post cw,
      sort_services_by_dependencies exFailDefs = .ok sorted ∧
      sorted = pre ++ sdef :: post ∧
      "api" = sdef.name ∧ sdef.wait_condition = some cw ∧
      exFailCond = substCondition sdef
        ((sdef.name, cidStr (0 + pre.length)) :: deployedFor pre 0 []) cw ∧
      exProbeFalse exFailCond = false ∧
      exFailState.containers = [] ++ createdFor pre 0 ∧
      (∀ k ∈ createdFor pre 0, k.running = true) ∧
      (∀ k ∈ exFailState.containers, k.cid ≠ 0 + pre.length)) :=
  ⟨by decide,
   deploy_group_failed_probe_cleanup exProbeFalse exFailDefs ⟨0, []⟩ "api"
     exFailCond exFailState
     [exDb, { exApi with wait_condition := some exFailCond }]
     (by decide) (by rfl)⟩

lemma updAcc_lookup_frozen :
    ∀ sorted base dep upd (k : String), k ∉ sorted.map (·.name) →
      (updAcc sorted base dep upd).lookup k = upd.lookup k := by
  intro sorted
  induction sorted with
  | nil => intro base dep upd k _; rfl
  | cons s rest ih =>
    intro base dep upd k hk
    have hkrest : k ∉ rest.map (·.name) := by
      intro hmem
      exact hk (List.mem_cons_of_mem _ hmem)
    have hkname : s.name ≠ k := by
      intro he
      exact hk (he ▸ List.mem_cons_self _ _)
    cases hw : s.wait_condition with
    | none =>
      simp only [updAcc, hw]
      exact ih _ _ _ k hkrest
    | some c =>
      simp only [updAcc, hw]
      rw [ih _ _ _ k hkrest]
      have hne : (k == s.name) = false :=
        beq_eq_false_iff_ne.mpr (Ne.symm hkname)
      simp [List.lookup, hne]

lemma updAcc_lookup (sdef : ServiceDef) (c : WaitCondition) :
    ∀ sorted base dep upd,
      ((sorted.map (·.name))).Nodup →
      (∀ p ∈ upd, p.1 ∉ sorted.map (·.name)) →
      sdef ∈ sorted → sdef.wait_condition = some c →
      ∃ pre post, sorted = pre ++ sdef :: post ∧
        (updAcc sorted base dep upd).lookup sdef.name =
          some (substCondition sdef
            ((sdef.name, cidStr (base + pre.length)) ::
              deployedFor pre base dep) c) := by
  intro sorted
  induction sorted with
  | nil => intro base dep upd _ _ hmem; cases hmem
  | cons s rest ih =>
    intro base dep upd hnodup hupd hmem hc
    have hhead : s.name ∉ rest.map (·.name) :=
      (List.nodup_cons.mp (by simpa using hnodup)).1
    by_cases hss : sdef = s
    · subst hss
      refine ⟨[], rest, rfl, ?_⟩
      simp only [updAcc, hc]
      rw [updAcc_lookup_frozen rest (base + 1)
        ((sdef.name, cidStr base) :: dep)
        ((sdef.name, substCondition sdef
          ((sdef.name, cidStr base) :: dep) c) :: upd) sdef.name hhead]
      simp [List.lookup, deployedFor]
    · have hmemrest : sdef ∈ rest := by
        rcases List.mem_cons.mp hmem with he | hmem2
        · exact absurd he hss
        · exact hmem2
      have hnodup' : ((rest.map (·.name))).Nodup :=
        (List.nodup_cons.mp (by simpa using hnodup)).2
      cases hw : s.wait_condition with
      | none =>
        obtain ⟨pre', post', hsplit, hlook⟩ := ih (base + 1)
          ((s.name, cidStr base) :: dep) upd hnodup'
          (fun p hp hmem2 => hupd p hp (List.mem_cons_of_mem _ hmem2))
          hmemrest hc
        refine ⟨s :: pre', post', by rw [hsplit]; rfl, ?_⟩
        simp only [updAcc, hw]
        rw [hlook]
        have harith : base + 1 + pre'.length = base + (s :: pre').length := by
          simp only [List.length_cons]
          omega
        rw [harith]
        rfl
      | some c0 =>
        obtain ⟨pre', post', hsplit, hlook⟩ := ih (base + 1)
          ((s.name, cidStr base) :: dep)
          ((s.name, substCondition s ((s.name, cidStr base) :: dep) c0) ::
            upd) hnodup'
          (by
            intro p hp
            rcases List.mem_cons.mp hp with rfl | hp2
            · exact hhead
            · exact fun hmem2 => hupd p hp2 (List.mem_cons_of_mem _ hmem2))
          hmemrest hc
        refine ⟨s :: pre', post', by rw [hsplit]; rfl, ?_⟩
        simp only [updAcc, hw]
        rw [hlook]
        have harith : base + 1 + pre'.length = base + (s :: pre').length := by
          simp only [List.length_cons]
          omega
        rw [harith]
        rfl

lemma deployedFor_append :
    ∀ xs ys base acc, deployedFor (xs ++ ys) base acc =
      deployedFor ys (base + xs.length) (deployedFor xs base acc) := by
  intro xs
  induction xs with
  | nil => intro ys base acc; simp [deployedFor]
  | cons x rest ih =>
    intro ys base acc
    simp only [List.cons_append, deployedFor, List.append_eq]
    rw [ih]
    have : base + 1 + rest.length = base + (rest.length + 1) := by omega
    rw [this]
    rfl

lemma deployedFor_lookup_skip :
    ∀ ys base acc (d : String), d ∉ ys.map (·.name) →
      (deployedFor ys base acc).lookup d = acc.lookup d := by
  intro ys
  induction ys with
  | nil => intro base acc d _; rfl
  | cons y rest ih =>
    intro base acc d hd
    simp only [deployedFor]
    rw [ih _ _ d (fun h2 => hd (List.mem_cons_of_mem _ h2))]
    have hne : (d == y.name) = false :=
      beq_eq_false_iff_ne.mpr
        (fun he => hd (he ▸ List.mem_cons_self _ _))
    simp [List.lookup, hne]

lemma deployedFor_lookup_mem :
    ∀ pre base (d : String), ((pre.map (·.name))).Nodup →
      d ∈ pre.map (·.name) →
      ∃ j, j < pre.length ∧ ∀ acc,
        (deployedFor pre base acc).lookup d = some (cidStr (base + j)) := by
  intro pre
  induction pre with
  | nil => intro base d _ hmem; cases hmem
  | cons p rest ih =>
    intro base d hnodup hmem
    have hhead : p.name ∉ rest.map (·.name) :=
      (List.nodup_cons.mp (by simpa using hnodup)).1
    by_cases hdp : d = p.name
    · subst hdp
      refine ⟨0, Nat.succ_pos _, ?_⟩
      intro acc
      simp only [deployedFor]
      rw [deployedFor_lookup_skip rest (base + 1)
        ((p.name, cidStr base) :: acc) p.name hhead]
      simp [List.lookup]
    · have hmemrest : d ∈ rest.map (·.name) := by
        rcases List.mem_cons.mp hmem with he | h2
        · exact absurd he hdp
        · exact h2
      obtain ⟨j, hj, hall⟩ := ih (base + 1) d
        ((List.nodup_cons.mp (by simpa using hnodup)).2) hmemrest
      refine ⟨j + 1, Nat.succ_lt_succ hj, ?_⟩
      intro acc
      simp only [deployedFor]
      rw [hall ((p.name, cidStr base) :: acc)]
      congr 1
      congr 1
      omega

lemma find?_name_self {defs : List ServiceDef} {sdef : ServiceDef}
    (hnodup : ((defs.map (·.name))).Nodup) (hmem : sdef ∈ defs) :
    defs.find? (fun t => t.name == sdef.name) = some sdef := by
  induction defs with
  | nil => cases hmem
  | cons a rest ih =>
    by_cases ha : a.name = sdef.name
    · have : a = sdef := names_injective hnodup a (List.mem_cons_self _ _)
        sdef hmem ha
      subst this
      exact List.find?_cons_of_pos _ (by simp)
    · have hmemrest : sdef ∈ rest := by
        rcases List.mem_cons.mp hmem with he | h2
        · exact absurd (congrArg (·.name) he.symm) ha
        · exact h2
      rw [List.find?_cons_of_neg _ (by simpa using ha)]
      exact ih ((List.nodup_cons.mp (by simpa using hnodup)).2) hmemrest

lemma applyUpdates_find? :
    ∀ defs upd (nm : String),
      (applyUpdates defs upd).find? (fun t => t.name == nm) =
        (defs.find? (fun t => t.name == nm)).map (fun s =>
          match upd.lookup s.name with
          | some c => { s with wait_condition := some c }
          | none => s) := by
  intro defs
  induction defs with
  | nil => intro upd nm; rfl
  | cons a rest ih =>
    intro upd nm
    have hname : (match upd.lookup a.name with
        | some c => { a with wait_condition := some c }
        | none => a).name = a.name := by
      cases upd.lookup a.name <;> rfl
    by_cases ha : a.name = nm
    · rw [show applyUpdates (a :: rest) upd =
        (match upd.lookup a.name with
          | some c => { a with wait_condition := some c }
          | none => a) :: applyUpdates rest upd from rfl]
      rw [List.find?_cons_of_pos _ (by rw [hname]; simp [ha]),
        List.find?_cons_of_pos _ (by simp [ha])]
      rfl
    · rw [show applyUpdates (a :: rest) upd =
        (match upd.lookup a.name with
          | some c => { a with wait_condition := some c }
          | none => a) :: applyUpdates rest upd from rfl]
      rw [List.find?_cons_of_neg _ (by rw [hname]; simp [ha]),
        List.find?_cons_of_neg _ (by simp [ha])]
      exact ih upd nm

lemma get_append_middle {α : Type} (pre post : List α) (a : α)
    (h : pre.length < (pre ++ a :: post).length) :
    (pre ++ a :: post).get ⟨pre.length, h⟩ = a := by
  induction pre with
  | nil => rfl
  | cons x rest ih =>
    have hstep : ((x :: rest) ++ a :: post).get ⟨(x :: rest).length, h⟩ =
        (rest ++ a :: post).get ⟨rest.length, by simp⟩ := rfl
    rw [hstep]
    exact ih _

/-- C10 (implicit): on a successful `deploy_group` call over a batch
with unique names, every service carrying a `wait_condition` together
with a `depends_on` reference has its caller-supplied condition dict
mutated in place: for a `tcp` condition the `host` key now holds the
`depends_on` name (observably changing the caller's input whenever the
original host differed), and for a `log` condition the `container_id`
key now holds the referenced service's just-assigned container id (the
one the call returns for that service). -/
theorem deploy_group_mutates_wait_conditions
    (probe : WaitCondition → Bool) (defs : List ServiceDef)
    (st : DockerState) (res : List (String × String)) (st' : DockerState)
    (defs' : List ServiceDef) (sdef : ServiceDef) (c : WaitCondition)
    (d : String)
    (hnodup : ((defs.map (·.name))).Nodup)
    (h : deploy_group probe defs st = (.ok res, st', defs'))
    (hmem : sdef ∈ defs) (hc : sdef.wait_condition = some c)
    (hd : sdef.depends_on = some d) (hdne : d ≠ "") :
    ∃ c1, defs'.find? (fun t => t.name == sdef.name) =
        some { sdef with wait_condition := some c1 } ∧
      (c.type = some "tcp" → c1 = { c with host := some d } ∧
        (c.host ≠ some d → defs' ≠ defs)) ∧
      (c.type = some "log" → ∃ cid, res.lookup d = some cid ∧
        c1 = { c with container_id := some cid }) := by
  unfold deploy_group at h
  cases hsort : sort_services_by_dependencies defs with
  | error names =>
    rw [hsort] at h
    dsimp only at h
    injection h with h1 _
    cases h1
  | ok sorted =>
    rw [hsort] at h
    dsimp only at h
    rcases hdl : deployLoop probe sorted [] [] st with ⟨res0, st1, upd⟩
    rw [hdl] at h
    dsimp only at h
    injection h with h1 h23
    injection h23 with h2 h3
    obtain ⟨hres, hstt, hupd⟩ :=
      deployLoop_ok_spec probe sorted [] [] st res st1 upd (by rw [hdl, h1])
    have hperm : defs.Perm sorted :=
      sortLoop_ok_perm defs.length defs [] sorted rfl hsort
    have hnodupsorted : ((sorted.map (·.name))).Nodup :=
      (hperm.map (·.name)).nodup_iff.mp hnodup
    have hmemsorted : sdef ∈ sorted := hperm.mem_iff.mp hmem
    obtain ⟨pre, post, hsplit, hlook⟩ := updAcc_lookup sdef c sorted
      st.nextId [] [] hnodupsorted (by intro p hp; cases hp) hmemsorted hc
    subst hsplit
    refine ⟨substCondition sdef
      ((sdef.name, cidStr (st.nextId + pre.length)) ::
        deployedFor pre st.nextId []) c, ?_, ?_, ?_⟩
    · rw [← h3, applyUpdates_find? defs upd sdef.name,
        find?_name_self hnodup hmem, hupd]
      simp only [Option.map_some', hlook]
    · intro htcp
      constructor
      · unfold substCondition
        rw [if_pos htcp, hd]
      · intro hhost habs
        have hfindq : defs'.find? (fun t => t.name == sdef.name) =
            some { sdef with wait_condition := some (substCondition sdef
              ((sdef.name, cidStr (st.nextId + pre.length)) ::
                deployedFor pre st.nextId []) c) } := by
          rw [← h3, applyUpdates_find? defs upd sdef.name,
            find?_name_self hnodup hmem, hupd]
          simp only [Option.map_some', hlook]
        rw [habs, find?_name_self hnodup hmem] at hfindq
        have heq := Option.some.inj hfindq
        have hwc := congrArg ServiceDef.wait_condition heq
        rw [hc] at hwc
        have hceq := Option.some.inj hwc
        have hsubst : substCondition sdef
            ((sdef.name, cidStr (st.nextId + pre.length)) ::
              deployedFor pre st.nextId []) c =
            { c with host := some d } := by
          unfold substCondition
          rw [if_pos htcp, hd]
        rw [hsubst] at hceq
        exact hhost (congrArg WaitCondition.host hceq)
    · intro hlog
      have hnottcp : ¬ (c.type = some "tcp") := by
        rw [hlog]
        simp
      have horder := sortLoop_ok_order defs.length defs []
        (pre ++ sdef :: post) rfl hsort
      have hppos : pre.length < (pre ++ sdef :: post).length := by
        simp
      have hget : (pre ++ sdef :: post).get ⟨pre.length, hppos⟩ = sdef :=
        get_append_middle pre post sdef hppos
      have hdmem := horder pre.length hppos d (by rw [hget, hd]) hdne
      have hdpre : d ∈ pre.map (·.name) := by
        rcases hdmem with habs | hmem2
        · cases habs
        · rw [List.take_left] at hmem2
          exact hmem2
      have hnamesplit : (((pre ++ sdef :: post).map (·.name))) =
          pre.map (·.name) ++ sdef.name :: post.map (·.name) := by
        simp
      have hprenodup : ((pre.map (·.name))).Nodup := by
        rw [hnamesplit] at hnodupsorted
        exact hnodupsorted.of_append_left
      obtain ⟨j, hj, hall⟩ := deployedFor_lookup_mem pre st.nextId d
        hprenodup hdpre
      have hfresh := middle_name_fresh hnodupsorted
      have hdnesname : d ≠ sdef.name := by
        intro he
        obtain ⟨u, hu, hun⟩ := List.mem_map.mp hdpre
        exact hfresh.1 u hu (hun.trans he)
      have hDlookup : (((sdef.name, cidStr (st.nextId + pre.length)) ::
          deployedFor pre st.nextId [])).lookup d =
          some (cidStr (st.nextId + j)) := by
        have hne : (d == sdef.name) = false :=
          beq_eq_false_iff_ne.mpr hdnesname
        simp [List.lookup, hne, hall []]
      have hdisj : ∀ x, x ∈ pre.map (·.name) →
          x ∈ sdef.name :: post.map (·.name) → False := by
        rw [hnamesplit] at hnodupsorted
        exact fun x hx1 hx2 =>
          (List.nodup_append.mp hnodupsorted).2.2 hx1 hx2
      have hres2 : res.lookup d = some (cidStr (st.nextId + j)) := by
        rw [hres, deployedFor_append]
        rw [deployedFor_lookup_skip (sdef :: post) (st.nextId + pre.length)
          (deployedFor pre st.nextId []) d ?_]
        · exact hall []
        · intro hmem2
          apply hdisj d hdpre
          simpa using hmem2
      refine ⟨cidStr (st.nextId + j), hres2, ?_⟩
      unfold substCondition
      rw [if_neg hnottcp, if_pos hlog, hd]
      dsimp only
      rw [hDlookup]

/-- Runtime state after the successful witness deployment: both
containers present and running. -/
def exOkState : DockerState :=
  ⟨2, [{ cid := 0, cname := some "db", image := "postgres15", ports := [],
         env := [], running := true },
       { cid := 1, cname := some "api", image := "myapi", ports := [],
         env := [], running := true }]⟩

/-- Result map of the successful witness deployment. -/
def exOkRes : List (String × String) := [("api", "1"), ("db", "0")]

/-- Caller-visible definitions after the successful witness deployment:
`api`'s condition dict now has `host = "db"`. -/
def exOkDefs : List ServiceDef :=
  [exDb, { exApi with wait_condition := some exFailCond }]

/-- Witness for `deploy_group_mutates_wait_conditions` at the concrete
two-service batch with an always-succeeding probe. -/
theorem deploy_group_mutates_wait_conditions_witness :
    ((exDefs.map (·.name))).Nodup ∧
    (∃ c1, exOkDefs.find? (fun t => t.name == exApi.name) =
        some { exApi with wait_condition := some c1 } ∧
      (exTcpCond.type = some "tcp" →
        c1 = { exTcpCond with host := some "db" } ∧
        (exTcpCond.host ≠ some "db" → exOkDefs ≠ exDefs)) ∧
      (exTcpCond.type = some "log" → ∃ cid,
        exOkRes.lookup "db" = some cid ∧
        c1 = { exTcpCond with container_id := some cid })) :=
  ⟨by decide,
   deploy_group_mutates_wait_conditions (fun _ => true) exDefs ⟨0, []⟩
     exOkRes exOkState exOkDefs exApi exTcpCond "db"
     (by decide) (by rfl) (by decide) rfl rfl (by decide)⟩

/-- A per-container health-check record (`src/health.py`,
`HealthMonitor._health_checks` values).  Timestamps are naturals. -/
structure HealthInfo where
  endpoint : String
  interval : Nat
  last_check : Option Nat
  status : String
  created_at : Nat
  deriving Repr, DecidableEq

/-- The `HealthMonitor` state: the `_health_checks` dict (latest entry
first) and the key set of `_monitoring_threads` (the `Thread` objects
carry no further observable state in this model). -/
structure HealthState where
  health_checks : List (String × HealthInfo) := []
  monitoring_threads : List String := []
  deriving Repr, DecidableEq

/-- Kernel-computable equivalent of `String.startsWith`. -/
def strStartsWith (s p : String) : Bool := s.data.take p.data.length == p.data

/-- `HealthMonitor.add_health_check` (`src/health.py` lines 23-53):
stores a record with `last_check = None` and `status = "unknown"`;
touches nothing else (in particular it starts no monitoring thread). -/
def add_health_check (now : Nat) (st : HealthState)
    (container_id endpoint : String) (interval : Nat) : HealthState :=
  { st with health_checks :=
      (container_id,
       { endpoint := endpoint, interval := interval, last_check := none,
         status := "unknown", created_at := now }) :: st.health_checks }

/-- The endpoint-scheme dispatch of `get_service_health`
(`src/health.py` lines 71-78): `tcp://` prefixed endpoints use the TCP
check, `http(s)://` the HTTP check, anything else falls back to TCP with
a `tcp://` prefix.  `tcpProbe`/`httpProbe` are the outcomes of
`_check_tcp_endpoint`/`_check_http_endpoint` (total: both helpers catch
their errors and return `False`). -/
def checkEndpoint (tcpProbe httpProbe : String → Bool)
    (endpoint : String) : Bool :=
  if strStartsWith endpoint "tcp://" then tcpProbe endpoint
  else if strStartsWith endpoint "http://" ||
      strStartsWith endpoint "https://" then httpProbe endpoint
  else tcpProbe ("tcp://" ++ endpoint)

/-- `HealthMonitor.get_service_health` (`src/health.py` lines 55-86):
an unknown container returns the error dict (modelled `none`) without
touching state; otherwise one probe runs and `status`/`last_check` are
overwritten in the stored record as a side effect, the updated record
being returned. -/
def get_service_health (tcpProbe httpProbe : String → Bool) (now : Nat)
    (st : HealthState) (container_id : String) :
    Option HealthInfo × HealthState :=
  match st.health_checks.lookup container_id with
  | none => (none, st)
  | some info =>
    let is_healthy := checkEndpoint tcpProbe httpProbe info.endpoint
    let info2 := { info with
      last_check := some now,
      status := if is_healthy then "healthy" else "unhealthy" }
    (some info2,
     { st with health_checks := (container_id, info2) :: st.health_checks })

/-- `HealthMonitor.enable_auto_restart` (`src/health.py` lines 88-118).
Without a stored health check it returns the error dict (`false`,
nothing started).  When a monitoring thread is already registered the
source executes `self._monitoring_threads[container_id].stop()`; Python's
`threading.Thread` has no `stop` method, so that line raises
`AttributeError` before any replacement thread is started.  Otherwise a
new thread is started and registered (`true`). -/
def enable_auto_restart (st : HealthState) (container_id : String) :
    Except PyErr (Bool × HealthState) :=
  if (st.health_checks.lookup container_id).isNone then
    .ok (false, st)
  else if st.monitoring_threads.contains container_id then
    .error (.attributeError "Thread object has no attribute stop")
  else
    .ok (true,
      { st with monitoring_threads := container_id :: st.monitoring_threads })

lemma checkEndpoint_false (tcpProbe httpProbe : String → Bool)
    (h : ∀ e, tcpProbe e = false ∧ httpProbe e = false) (endpoint : String) :
    checkEndpoint tcpProbe httpProbe endpoint = false := by
  unfold checkEndpoint
  split
  · exact (h _).1
  · split
    · exact (h _).2
    · exact (h _).1

/-- C8: `add_health_check` stores the record in state `unknown` with no
`last_check` and starts no monitoring; each subsequent
`get_service_health` call performs one probe and overwrites `status` and
`last_check` in the stored record.  With an unreachable endpoint (every
probe false) two consecutive calls at times `t1 ≤ t2` both return
`"unhealthy"`, and the recorded `last_check` timestamps are monotonically
non-decreasing. -/
lemma lookup_cons_self (l : List (String × HealthInfo)) (k : String)
    (v : HealthInfo) : (((k, v) :: l)).lookup k = some v := by
  simp [List.lookup]

lemma get_service_health_hit (tcpProbe httpProbe : String → Bool)
    (now : Nat) (st : HealthState) (cid : String) (info : HealthInfo)
    (hlk : st.health_checks.lookup cid = some info)
    (hfalse : checkEndpoint tcpProbe httpProbe info.endpoint = false) :
    get_service_health tcpProbe httpProbe now st cid =
      (some ⟨info.endpoint, info.interval, some now, "unhealthy",
         info.created_at⟩,
       ⟨(cid, ⟨info.endpoint, info.interval, some now, "unhealthy",
           info.created_at⟩) :: st.health_checks,
        st.monitoring_threads⟩) := by
  unfold get_service_health
  rw [hlk]
  simp [hfalse]

theorem health_check_mutating_read (tcpProbe httpProbe : String → Bool)
    (st0 : HealthState) (cid endpoint : String) (interval : Nat)
    (t0 t1 t2 : Nat)
    (hunreachable : ∀ e, tcpProbe e = false ∧ httpProbe e = false)
    (hle : t1 ≤ t2) :
    (add_health_check t0 st0 cid endpoint interval).health_checks.lookup
        cid =
      some { endpoint := endpoint, interval := interval, last_check := none,
             status := "unknown", created_at := t0 } ∧
    (add_health_check t0 st0 cid endpoint interval).monitoring_threads =
      st0.monitoring_threads ∧
    (∃ i1 st2, get_service_health tcpProbe httpProbe t1
        (add_health_check t0 st0 cid endpoint interval) cid =
        (some i1, st2) ∧
      i1.status = "unhealthy" ∧ i1.last_check = some t1 ∧
      ∃ i2 st3, get_service_health tcpProbe httpProbe t2 st2 cid =
          (some i2, st3) ∧
        i2.status = "unhealthy" ∧ i2.last_check = some t2 ∧
        ∃ a b, i1.last_check = some a ∧ i2.last_check = some b ∧ a ≤ b) := by
  have hfalse := checkEndpoint_false tcpProbe httpProbe hunreachable
  have hlookup0 : (add_health_check t0 st0 cid endpoint
      interval).health_checks.lookup cid =
      some ⟨endpoint, interval, none, "unknown", t0⟩ := by
    simp [add_health_check, List.lookup]
  have h1 := get_service_health_hit tcpProbe httpProbe t1
    (add_health_check t0 st0 cid endpoint interval) cid
    ⟨endpoint, interval, none, "unknown", t0⟩ hlookup0 (hfalse _)
  have hlookup1 := lookup_cons_self
    (add_health_check t0 st0 cid endpoint interval).health_checks cid
    ⟨endpoint, interval, some t1, "unhealthy", t0⟩
  have h2 := get_service_health_hit tcpProbe httpProbe t2
    ⟨(cid, ⟨endpoint, interval, some t1, "unhealthy", t0⟩) ::
      (add_health_check t0 st0 cid endpoint interval).health_checks,
     (add_health_check t0 st0 cid endpoint interval).monitoring_threads⟩
    cid ⟨endpoint, interval, some t1, "unhealthy", t0⟩ hlookup1 (hfalse _)
  exact ⟨hlookup0, rfl, ⟨endpoint, interval, some t1, "unhealthy", t0⟩, _,
    h1, rfl, rfl, ⟨endpoint, interval, some t2, "unhealthy", t0⟩, _,
    h2, rfl, rfl, t1, t2, rfl, rfl, hle⟩

/-- Witness for `health_check_mutating_read` at a concrete unreachable
endpoint and times 1 ≤ 2. -/
theorem health_check_mutating_read_witness :
    (∀ e : String, (fun _ => false) e = false ∧
      (fun _ => false) e = false) ∧ (1 : Nat) ≤ 2 ∧
    ((add_health_check 0 ⟨[], []⟩ "c1" "db:5432" 30).health_checks.lookup
        "c1" =
      some { endpoint := "db:5432", interval := 30, last_check := none,
             status := "unknown", created_at := 0 } ∧
    (add_health_check 0 ⟨[], []⟩ "c1" "db:5432"
      30).monitoring_threads = ([] : List String) ∧
    (∃ i1 st2, get_service_health (fun _ => false) (fun _ => false) 1
        (add_health_check 0 ⟨[], []⟩ "c1" "db:5432" 30) "c1" =
        (some i1, st2) ∧
      i1.status = "unhealthy" ∧ i1.last_check = some 1 ∧
      ∃ i2 st3, get_service_health (fun _ => false) (fun _ => false) 2
          st2 "c1" = (some i2, st3) ∧
        i2.status = "unhealthy" ∧ i2.last_check = some 2 ∧
        ∃ a b, i1.last_check = some a ∧ i2.last_check = some b ∧ a ≤ b)) :=
  ⟨fun _ => ⟨rfl, rfl⟩, by decide,
   health_check_mutating_read (fun _ => false) (fun _ => false) ⟨[], []⟩
     "c1" "db:5432" 30 0 1 2 (fun _ => ⟨rfl, rfl⟩) (by decide)⟩

/-- State after adding a health check for `c1`. -/
def exHealthSt1 : HealthState :=
  add_health_check 0 ⟨[], []⟩ "c1" "db:5432" 30

/-- State after the first (successful) `enable_auto_restart` for `c1`. -/
def exHealthSt2 : HealthState :=
  { exHealthSt1 with monitoring_threads := ["c1"] }

/-- C7 (code bug): the first `enable_auto_restart` for a monitored
container succeeds and registers its supervision loop, but a second call
— the re-enable the spec says must replace the prior loop — raises
`AttributeError`, because the source calls `.stop()` on a
`threading.Thread`, which has no such method
(`src/health.py` line 103). -/
theorem enable_auto_restart_reenable_raises :
    enable_auto_restart exHealthSt1 "c1" = .ok (true, exHealthSt2) ∧
    enable_auto_restart exHealthSt2 "c1" =
      .error (.attributeError "Thread object has no attribute stop") :=
  ⟨rfl, rfl⟩

/-- A recorded bind-mount (`Mounts` entry) as read by `restore_env`. -/
structure VolumeMount where
  mtype : Option String := none
  source : Option String := none
  destination : Option String := none
  deriving Repr, DecidableEq

/-- One recorded container of a snapshot (`SnapshotManager.snapshot_env`,
`src/snapshots.py` lines 51-62): `ports` maps a container port to the
list of its host bindings (each binding's `HostPort` string), `env` is
the raw `K=V` string list from `Config.Env`. -/
structure ContainerRecord where
  id : String
  name : String
  image : String
  ports : List (String × List String) := []
  env : List String := []
  labels : List (String × String) := []
  restart_policy : String := ""
  network_mode : String := "default"
  volumes : List VolumeMount := []
  deriving Repr, DecidableEq

/-- A stored snapshot. -/
structure Snapshot where
  env_name : String
  created_at : Nat
  containers : List ContainerRecord
  deriving Repr, DecidableEq

/-- An entry of `restored_containers`. -/
structure RestoredEntry where
  original_id : String
  new_id : String
  name : String
  deriving Repr, DecidableEq

/-- An entry of `failed_containers`. -/
structure FailedEntry where
  name : String
  image : String
  error : String
  deriving Repr, DecidableEq

/-- The result dict of `restore_env`. -/
structure RestoreResult where
  snapshot_name : String
  restored_containers : List RestoredEntry
  failed_containers : List FailedEntry
  container_count : Nat
  status : String
  deriving Repr, DecidableEq

/-- Port parsing of `restore_env` (`src/snapshots.py` lines 103-109):
keep each container port whose binding list is nonempty, bound to the
first binding's `HostPort`. -/
def parsePorts (ports : List (String × List String)) :
    List (String × String) :=
  ports.filterMap (fun p =>
    match p.2 with
    | [] => none
    | h :: _ => some (p.1, h))

/-- `K=V` split of one recorded env string (`split("=", 1)`); entries
without `=` are skipped. -/
def splitEnvVar (s : String) : Option (String × String) :=
  if s.data.contains '=' then
    some (⟨s.data.takeWhile (fun c => c ≠ '=')⟩,
          ⟨((s.data.dropWhile (fun c => c ≠ '='))).tail⟩)
  else none

/-- Env parsing of `restore_env` (`src/snapshots.py` lines 112-120). -/
def parseEnv (env : List String) : List (String × String) :=
  env.filterMap splitEnvVar

/-- The per-record loop of `restore_env` (`src/snapshots.py` lines
95-160).  `pullFails img` is whether `pull_image_if_needed_sync` raises
for `img` (the outer `except`, which appends to `failed_containers`);
`runFails rec` is whether `client.containers.run` raises for this record
(the inner `except`, which prints the error and `continue`s without
recording anything).  A successful run creates a container and yields a
`restored_containers` entry with the freshly assigned id. -/
def restore_loop (pullFails : String → Bool)
    (runFails : ContainerRecord → Bool) :
    List ContainerRecord → DockerState →
    List RestoredEntry × List FailedEntry × DockerState
  | [], st => ([], [], st)
  | rec :: rest, st =>
    if rec.image ≠ "unknown" && pullFails rec.image then
      let r := restore_loop pullFails runFails rest st
      (r.1, ⟨rec.name, rec.image, "pull failed " ++ rec.image⟩ :: r.2.1,
       r.2.2)
    else if runFails rec then
      restore_loop pullFails runFails rest st
    else
      let run := runContainer st (some rec.name) rec.image
        (parsePorts rec.ports) (parseEnv rec.env)
      let r := restore_loop pullFails runFails rest run.2
      (⟨rec.id, cidStr run.1, rec.name⟩ :: r.1, r.2.1, r.2.2)

/-- `SnapshotManager.restore_env(snapshot_name)` (`src/snapshots.py`
lines 74-168): unknown snapshots raise `ValueError`; otherwise every
recorded container is attempted in order and the report carries the
restored and failed lists. -/
def restore_env (pullFails : String → Bool)
    (runFails : ContainerRecord → Bool)
    (snapshots : List (String × Snapshot)) (snapshot_name : String)
    (st : DockerState) : Except PyErr RestoreResult × DockerState :=
  match snapshots.lookup snapshot_name with
  | none =>
    (.error (.valueError ("Snapshot " ++ snapshot_name ++ " not found")), st)
  | some snap =>
    let r := restore_loop pullFails runFails snap.containers st
    (.ok { snapshot_name := snapshot_name, restored_containers := r.1,
           failed_containers := r.2.1, container_count := r.1.length,
           status := "restored" }, r.2.2)

/-- The per-record fate of a restoration attempt, as recorded in
`failed_containers`: only image-pull failures are recorded. -/
def failedOf (pullFails : String → Bool) (rec : ContainerRecord) :
    Option FailedEntry :=
  if rec.image ≠ "unknown" && pullFails rec.image then
    some ⟨rec.name, rec.image, "pull failed " ++ rec.image⟩
  else none

/-- The per-record fate of a restoration attempt, as recorded in
`restored_containers` (keyed by original id and name): a record restores
exactly when neither its pull nor its run fails, independent of every
other record's fate. -/
def restoredKeyOf (pullFails : String → Bool)
    (runFails : ContainerRecord → Bool) (rec : ContainerRecord) :
    Option (String × String) :=
  if rec.image ≠ "unknown" && pullFails rec.image then none
  else if runFails rec then none
  else some (rec.id, rec.name)

lemma restore_loop_spec (pullFails : String → Bool)
    (runFails : ContainerRecord → Bool) :
    ∀ recs st,
      (restore_loop pullFails runFails recs st).2.1 =
        recs.filterMap (failedOf pullFails) ∧
      ((restore_loop pullFails runFails recs st).1).map
        (fun e => (e.original_id, e.name)) =
        recs.filterMap (restoredKeyOf pullFails runFails) ∧
      ((restore_loop pullFails runFails recs st).1).length ≤ recs.length := by
  intro recs
  induction recs with
  | nil =>
    intro st
    exact ⟨rfl, rfl, Nat.le_refl _⟩
  | cons rec rest ih =>
    intro st
    by_cases hpull : (rec.image ≠ "unknown" && pullFails rec.image) = true
    · simp only [restore_loop, hpull, if_pos, List.filterMap_cons,
        failedOf, restoredKeyOf]
      obtain ⟨hf, hr, hl⟩ := ih st
      exact ⟨by rw [hf], by rw [hr], Nat.le_succ_of_le hl⟩
    · by_cases hrun : runFails rec = true
      · simp only [restore_loop, hpull, Bool.false_eq_true, if_neg,
          not_false_iff, hrun, if_pos, List.filterMap_cons, failedOf,
          restoredKeyOf]
        obtain ⟨hf, hr, hl⟩ := ih st
        exact ⟨by rw [hf], by rw [hr], Nat.le_succ_of_le hl⟩
      · simp only [restore_loop, hpull, Bool.false_eq_true, if_neg,
          not_false_iff, hrun, List.filterMap_cons, failedOf,
          restoredKeyOf, List.map_cons, List.length_cons]
        obtain ⟨hf, hr, hl⟩ := ih (runContainer st (some rec.name)
          rec.image (parsePorts rec.ports) (parseEnv rec.env)).2
        exact ⟨by rw [hf], by rw [hr], Nat.succ_le_succ hl⟩

/-- A snapshot whose single recorded container's `containers.run` call
fails on restore. -/
def exBadRunRec : ContainerRecord :=
  { id := "abc", name := "web", image := "nginx" }

/-- Snapshot store holding that snapshot under the name `s`. -/
def exSnapshots : List (String × Snapshot) :=
  [("s", { env_name := "s", created_at := 0,
           containers := [exBadRunRec] })]

/-- C5 counterexample: restoring a snapshot whose only recorded
container fails in the `containers.run` call (run oracle constantly
true, pull oracle constantly false) returns `restored_containers = []`
and `failed_containers = []`: the failed container is *not* recorded in
the failed list — the inner `except` around `containers.run` prints the
error and `continue`s without appending to `failed_containers`
(`src/snapshots.py` lines 151-153). -/
theorem restore_env_swallows_run_failure :
    restore_env (fun _ => false) (fun _ => true) exSnapshots "s" ⟨0, []⟩ =
      (.ok { snapshot_name := "s", restored_containers := [],
             failed_containers := [], container_count := 0,
             status := "restored" }, ⟨0, []⟩) := rfl

/-- C5 amended: every recorded container's restoration is attempted
independently — each record's fate is a function of that record alone.
A record whose image pull raises is recorded in `failed_containers`
together with its error; a record whose final `containers.run` call
raises is skipped silently and is *not* recorded in `failed_containers`;
in both cases the remaining records are still attempted, and
`restored_containers` has length at most the number of recorded
containers. -/
theorem restore_env_isolated (pullFails : String → Bool)
    (runFails : ContainerRecord → Bool)
    (snapshots : List (String × Snapshot)) (nm : String) (snap : Snapshot)
    (st : DockerState) (hlk : snapshots.lookup nm = some snap) :
    ∃ result st2,
      restore_env pullFails runFails snapshots nm st = (.ok result, st2) ∧
      result.failed_containers =
        snap.containers.filterMap (failedOf pullFails) ∧
      (result.restored_containers.map (fun e => (e.original_id, e.name))) =
        snap.containers.filterMap (restoredKeyOf pullFails runFails) ∧
      result.restored_containers.length ≤ snap.containers.length := by
  obtain ⟨hf, hr, hl⟩ := restore_loop_spec pullFails runFails
    snap.containers st
  refine ⟨{ snapshot_name := nm,
            restored_containers :=
              (restore_loop pullFails runFails snap.containers st).1,
            failed_containers :=
              (restore_loop pullFails runFails snap.containers st).2.1,
            container_count :=
              ((restore_loop pullFails runFails snap.containers st).1).length,
            status := "restored" },
         (restore_loop pullFails runFails snap.containers st).2.2, ?_,
         hf, hr, hl⟩
  unfold restore_env
  rw [hlk]

/-- Witness snapshot exercising all three fates: `c1`'s pull fails,
`c2`'s run fails, `c3` restores. -/
def exMixedSnapshots : List (String × Snapshot) :=
  [("mix", { env_name := "mix", created_at := 0,
             containers :=
               [{ id := "i1", name := "c1", image := "bad" },
                { id := "i2", name := "c2", image := "ok1" },
                { id := "i3", name := "c3", image := "ok2" }] })]

/-- Witness for `restore_env_isolated` at the mixed three-container
snapshot. -/
theorem restore_env_isolated_witness :
    exMixedSnapshots.lookup "mix" =
      some { env_name := "mix", created_at := 0,
             containers :=
               [{ id := "i1", name := "c1", image := "bad" },
                { id := "i2", name := "c2", image := "ok1" },
                { id := "i3", name := "c3", image := "ok2" }] } ∧
    (∃ result st2,
      restore_env (fun img => img == "bad") (fun rec => rec.name == "c2")
        exMixedSnapshots "mix" ⟨0, []⟩ = (.ok result, st2) ∧
      result.failed_containers =
        ({ env_name := "mix", created_at := 0,
           containers :=
             [{ id := "i1", name := "c1", image := "bad" },
              { id := "i2", name := "c2", image := "ok1" },
              { id := "i3", name := "c3", image := "ok2" }] } :
          Snapshot).containers.filterMap
          (failedOf (fun img => img == "bad")) ∧
      (result.restored_containers.map (fun e => (e.original_id, e.name))) =
        ({ env_name := "mix", created_at := 0,
           containers :=
             [{ id := "i1", name := "c1", image := "bad" },
              { id := "i2", name := "c2", image := "ok1" },
              { id := "i3", name := "c3", image := "ok2" }] } :
          Snapshot).containers.filterMap
          (restoredKeyOf (fun img => img == "bad")
            (fun rec => rec.name == "c2")) ∧
      result.restored_containers.length ≤
        ({ env_name := "mix", created_at := 0,
           containers :=
             [{ id := "i1", name := "c1", image := "bad" },
              { id := "i2", name := "c2", image := "ok1" },
              { id := "i3", name := "c3", image := "ok2" }] } :
          Snapshot).containers.length) :=
  ⟨rfl,
   restore_env_isolated (fun img => img == "bad")
     (fun rec => rec.name == "c2") exMixedSnapshots "mix" _ ⟨0, []⟩ rfl⟩

/-- A template's optional health-check spec. -/
structure HealthCheckSpec where
  endpoint : String
  interval : Nat
  deriving Repr, DecidableEq

/-- A stored template (`TemplateManager._templates` values,
`src/templates.py` lines 66-72). -/
structure Template where
  image : String
  ports : List (String × String)
  env_vars : List (String × String)
  health_check : Option HealthCheckSpec
  created_at : Nat
  deriving Repr, DecidableEq

/-- The overrides dict accepted by `run_from_template`; only the keys
the source reads (`image`, `ports`, `env_vars`). -/
structure Overrides where
  image : Option String := none
  ports : Option (List (String × String)) := none
  env_vars : Option (List (String × String)) := none
  deriving Repr, DecidableEq

/-- Python's `{**a, **b}` for string dicts: keys of `a` in order, each
with `b`'s value when `b` has that key, followed by `b`'s keys not in
`a`. -/
def dictMerge (a b : List (String × String)) : List (String × String) :=
  a.map (fun p => (p.1, ((b.lookup p.1)).getD p.2)) ++
    b.filter (fun q => ((a.lookup q.1)).isNone)

/-- The result dict of `run_from_template`. -/
structure RunResult where
  container_id : String
  status : String
  template_name : String
  applied_overrides : Overrides
  deriving Repr, DecidableEq

/-- `TemplateManager.run_from_template(template_name, overrides)`
(`src/templates.py` lines 83-116): unknown templates raise `ValueError`;
otherwise the template is merged with the overrides (`{**template[...],
**overrides.get(...)}` — override values win) and `_deploy_service`
creates a container.  The stored templates map is returned unchanged:
the method never writes `self._templates` and the merges build fresh
dicts. -/
def run_from_template (templates : List (String × Template))
    (template_name : String) (overrides : Option Overrides)
    (st : DockerState) :
    Except PyErr (RunResult × List (String × Template) × DockerState) :=
  match templates.lookup template_name with
  | none =>
    .error (.valueError ("Template " ++ template_name ++ " not found"))
  | some t =>
    let ov := overrides.getD {}
    let image := ov.image.getD t.image
    let ports := dictMerge t.ports (ov.ports.getD [])
    let env_vars := dictMerge t.env_vars (ov.env_vars.getD [])
    let run := runContainer st none image ports env_vars
    .ok ({ container_id := cidStr run.1, status := "running",
           template_name := template_name, applied_overrides := ov },
         templates, run.2)

lemma lookup_append_str (l₁ l₂ : List (String × String)) (k : String) :
    ((l₁ ++ l₂)).lookup k =
      match l₁.lookup k with
      | some v => some v
      | none => l₂.lookup k := by
  induction l₁ with
  | nil => rfl
  | cons p rest ih =>
    by_cases hk : (k == p.1) = true
    · simp [List.cons_append, List.lookup, hk]
    · have hkf : (k == p.1) = false := by simpa using hk
      simp only [List.cons_append, List.lookup, hkf]
      exact ih

lemma lookup_map_override (b : List (String × String)) :
    ∀ (a : List (String × String)) (k : String),
      ((a.map (fun p => (p.1, ((b.lookup p.1)).getD p.2)))).lookup k =
        match a.lookup k with
        | some v => some (((b.lookup k)).getD v)
        | none => none := by
  intro a
  induction a with
  | nil => intro k; rfl
  | cons p rest ih =>
    intro k
    by_cases hk : (k == p.1) = true
    · have heq : k = p.1 := by simpa using hk
      subst heq
      simp [List.lookup]
    · have hkf : (k == p.1) = false := by simpa using hk
      simp only [List.map_cons, List.lookup, hkf]
      exact ih k

lemma lookup_filter_unclaimed (a : List (String × String)) :
    ∀ (b : List (String × String)) (k : String),
      ((b.filter (fun q => ((a.lookup q.1)).isNone))).lookup k =
        if ((a.lookup k)).isNone then b.lookup k else none := by
  intro b
  induction b with
  | nil => intro k; simp [List.lookup]
  | cons q rest ih =>
    obtain ⟨qk, qv⟩ := q
    intro k
    by_cases hk : (k == qk) = true
    · have hq : k = qk := by simpa using hk
      by_cases hnone : ((a.lookup k)).isNone = true
      · have hnone2 : ((a.lookup qk)).isNone = true := hq ▸ hnone
        rw [List.filter_cons_of_pos (by simpa using hnone2)]
        simp [List.lookup, hk, hnone]
      · have hnone2 : ¬ ((a.lookup qk)).isNone = true := hq ▸ hnone
        rw [List.filter_cons_of_neg (by simpa using hnone2)]
        rw [ih k]
        simp [hnone]
    · have hkf : (k == qk) = false := by simpa using hk
      by_cases hnone : ((a.lookup qk)).isNone = true
      · rw [List.filter_cons_of_pos (by simpa using hnone)]
        simp only [List.lookup, hkf]
        exact ih k
      · rw [List.filter_cons_of_neg (by simpa using hnone)]
        rw [ih k]
        by_cases hka : ((a.lookup k)).isNone = true
        · simp [hka, List.lookup, hkf]
        · simp [hka]

/-- Lookup characterization of Python's `{**a, **b}`: `b`'s value wins
whenever `b` has the key; `a`'s value is used otherwise. -/
lemma dictMerge_lookup (a b : List (String × String)) (k : String) :
    ((dictMerge a b)).lookup k =
      match a.lookup k with
      | some v => some (((b.lookup k)).getD v)
      | none => b.lookup k := by
  unfold dictMerge
  rw [lookup_append_str, lookup_map_override b a k,
    lookup_filter_unclaimed a b k]
  cases ha : a.lookup k with
  | none => simp [ha]
  | some v => simp [ha]

/-- C9: `run_from_template` on a stored template deploys a container
whose image and port map come from the template with override values
taking precedence (a port overridden in the overrides dict is deployed
with the override's host port, a port not overridden keeps the
template's), and the stored templates map — hence the stored template's
`image`, `ports`, `env_vars` and `health_check` — is returned exactly as
it was before the call. -/
theorem run_from_template_override_precedence
    (templates : List (String × Template)) (nm : String) (t : Template)
    (ov : Overrides) (st : DockerState)
    (hlk : templates.lookup nm = some t) :
    ∃ result st2 newc,
      run_from_template templates nm (some ov) st =
        .ok (result, templates, st2) ∧
      st2.containers = st.containers ++ [newc] ∧
      newc.image = ov.image.getD t.image ∧
      newc.ports = dictMerge t.ports (ov.ports.getD []) ∧
      newc.env = dictMerge t.env_vars (ov.env_vars.getD []) ∧
      (∀ k v, (((ov.ports.getD []))).lookup k = some v →
        ((newc.ports)).lookup k = some v) ∧
      (∀ k, (((ov.ports.getD []))).lookup k = none →
        ((newc.ports)).lookup k = t.ports.lookup k) := by
  refine ⟨{ container_id := cidStr st.nextId, status := "running",
            template_name := nm, applied_overrides := ov },
    (runContainer st none (ov.image.getD t.image)
      (dictMerge t.ports (ov.ports.getD []))
      (dictMerge t.env_vars (ov.env_vars.getD []))).2,
    { cid := st.nextId, cname := none, image := ov.image.getD t.image,
      ports := dictMerge t.ports (ov.ports.getD []),
      env := dictMerge t.env_vars (ov.env_vars.getD []),
      running := true }, ?_, rfl, rfl, rfl, rfl, ?_, ?_⟩
  · unfold run_from_template
    rw [hlk]
    rfl
  · intro k v hkv
    rw [dictMerge_lookup]
    cases ht : t.ports.lookup k with
    | none => simpa [ht] using hkv
    | some w => simp [ht, hkv]
  · intro k hk
    rw [dictMerge_lookup]
    cases ht : t.ports.lookup k with
    | none => simp [ht, hk]
    | some w => simp [ht, hk]

/-- Witness template storing host port 8080 for container port 80. -/
def exTemplate : Template :=
  { image := "nginx", ports := [("80", "8080")], env_vars := [],
    health_check := some { endpoint := "http8080", interval := 30 },
    created_at := 0 }

/-- Witness overrides remapping container port 80 to host port 9090. -/
def exOverrides : Overrides := { ports := some [("80", "9090")] }

/-- Witness for `run_from_template_override_precedence` at the concrete
template and overrides of the spec's example: the deployed port map
sends container port 80 to 9090, not 8080, and the stored template is
untouched. -/
theorem run_from_template_override_precedence_witness :
    ([("web", exTemplate)]).lookup "web" = some exTemplate ∧
    (∃ result st2 newc,
      run_from_template [("web", exTemplate)] "web" (some exOverrides)
        ⟨0, []⟩ = .ok (result, [("web", exTemplate)], st2) ∧
      st2.containers = [] ++ [newc] ∧
      newc.image = exOverrides.image.getD exTemplate.image ∧
      newc.ports = dictMerge exTemplate.ports
        (exOverrides.ports.getD []) ∧
      newc.env = dictMerge exTemplate.env_vars
        (exOverrides.env_vars.getD []) ∧
      (∀ k v, (((exOverrides.ports.getD []))).lookup k = some v →
        ((newc.ports)).lookup k = some v) ∧
      (∀ k, (((exOverrides.ports.getD []))).lookup k = none →
        ((newc.ports)).lookup k = exTemplate.ports.lookup k)) :=
  ⟨rfl,
   run_from_template_override_precedence [("web", exTemplate)] "web"
     exTemplate exOverrides ⟨0, []⟩ rfl⟩
